import Mathlib

/-!
Verification development for the agent task-scheduling, inference
load-balancing and associative-memory subsystem of the repository.

The TypeScript classes are shallowly embedded: JavaScript `Map`s and
`Set`s become insertion-ordered association lists, numbers become `ℚ`
(or `ℝ` where the code calls transcendental functions), asynchronous
methods become explicit state-transition functions, and the cooperative
turn-based execution model of the source becomes a small-step event
semantics.
-/

section RatKernelEval

attribute [local semireducible] Rat.add Rat.sub Rat.mul Rat.inv Rat.ofScientific

/-! ## Insertion-ordered maps and sets (JavaScript Map / Set semantics) -/

/-- Lookup in an insertion-ordered association list, as JS Map.get. -/
def mapGet {κ α : Type} [DecidableEq κ] (k : κ) : List (κ × α) → Option α
  | [] => none
  | p :: rest => if p.1 = k then some p.2 else mapGet k rest

/-- Insertion into an insertion-ordered association list, as JS Map.set:
an existing key keeps its position, a new key is appended at the end. -/
def mapSet {κ α : Type} [DecidableEq κ] (k : κ) (v : α) : List (κ × α) → List (κ × α)
  | [] => [(k, v)]
  | p :: rest => if p.1 = k then (k, v) :: rest else p :: mapSet k v rest

/-- Deletion from an association list, as JS Map.delete. -/
def mapDelete {κ α : Type} [DecidableEq κ] (k : κ) : List (κ × α) → List (κ × α)
  | [] => []
  | p :: rest => if p.1 = k then mapDelete k rest else p :: mapDelete k rest

/-- Insertion into an insertion-ordered set, as JS Set.add: a member
already present keeps its position, a new member is appended. -/
def setAdd (k : String) (s : List String) : List String :=
  if k ∈ s then s else s ++ [k]

/-- Removal from an insertion-ordered set, as JS Set.delete. -/
def setRemove (k : String) : List String → List String
  | [] => []
  | x :: rest => if x = k then setRemove k rest else x :: setRemove k rest

theorem mapGet_mapSet {κ α : Type} [DecidableEq κ] (j k : κ) (v : α) (m : List (κ × α)) :
    mapGet j (mapSet k v m) = if k = j then some v else mapGet j m := by
  induction m with
  | nil => simp [mapSet, mapGet]
  | cons p rest ih =>
    by_cases hpk : p.1 = k
    · subst hpk
      by_cases hkj : p.1 = j <;> simp [mapSet, mapGet, hkj]
    · by_cases hpj : p.1 = j
      · have hkj : ¬ k = j := fun h => hpk (by rw [hpj, h])
        have hjk : ¬ j = k := fun h => hkj h.symm
        simp [mapSet, mapGet, hpk, hpj, hkj, hjk]
      · simp [mapSet, mapGet, hpk, hpj, ih]

theorem mapGet_mapDelete {κ α : Type} [DecidableEq κ] (j k : κ) (m : List (κ × α)) :
    mapGet j (mapDelete k m) = if k = j then none else mapGet j m := by
  induction m with
  | nil => simp [mapDelete, mapGet]
  | cons p rest ih =>
    by_cases hpk : p.1 = k
    · subst hpk
      by_cases hkj : p.1 = j
      · subst hkj
        simpa [mapDelete, mapGet] using ih
      · simpa [mapDelete, mapGet, hkj] using ih
    · by_cases hpj : p.1 = j
      · have hkj : ¬ k = j := fun h => hpk (by rw [hpj, h])
        have hjk : ¬ j = k := fun h => hkj h.symm
        simp [mapDelete, mapGet, hpk, hpj, hkj, hjk]
      · simp [mapDelete, mapGet, hpk, hpj, ih]

theorem mem_of_mem_mapDelete {κ α : Type} [DecidableEq κ] {q : κ × α} {k : κ}
    {m : List (κ × α)} (h : q ∈ mapDelete k m) : q ∈ m := by
  induction m with
  | nil => simp [mapDelete] at h
  | cons p rest ih =>
    by_cases hpk : p.1 = k
    · simp only [mapDelete, hpk, if_pos] at h
      exact List.mem_cons_of_mem _ (ih h)
    · simp only [mapDelete, hpk, if_neg, not_false_iff, List.mem_cons] at h
      rcases h with h | h
      · exact h ▸ List.mem_cons_self _ _
      · exact List.mem_cons_of_mem _ (ih h)

theorem mem_of_mem_mapSet {κ α : Type} [DecidableEq κ] {q : κ × α} {k : κ} {v : α}
    {m : List (κ × α)} (h : q ∈ mapSet k v m) : q ∈ m ∨ q = (k, v) := by
  induction m with
  | nil => simpa [mapSet] using h
  | cons p rest ih =>
    by_cases hpk : p.1 = k
    · simp only [mapSet, hpk, if_pos, List.mem_cons] at h
      rcases h with h | h
      · exact Or.inr h
      · exact Or.inl (List.mem_cons_of_mem _ h)
    · simp only [mapSet, hpk, if_neg, not_false_iff, List.mem_cons] at h
      rcases h with h | h
      · exact Or.inl (h ▸ List.mem_cons_self _ _)
      · rcases ih h with h' | h'
        · exact Or.inl (List.mem_cons_of_mem _ h')
        · exact Or.inr h'

theorem nodup_keys_mapDelete {κ α : Type} [DecidableEq κ] (k : κ) (m : List (κ × α))
    (h : (m.map Prod.fst).Nodup) : ((mapDelete k m).map Prod.fst).Nodup := by
  induction m with
  | nil => simp [mapDelete]
  | cons p rest ih =>
    simp only [List.map_cons, List.nodup_cons] at h
    by_cases hpk : p.1 = k
    · simp only [mapDelete, hpk, if_pos]
      exact ih h.2
    · simp only [mapDelete, hpk, if_neg, not_false_iff, List.map_cons, List.nodup_cons]
      refine ⟨?_, ih h.2⟩
      intro hmem
      rcases List.mem_map.mp hmem with ⟨q, hq, hq1⟩
      exact h.1 (List.mem_map.mpr ⟨q, mem_of_mem_mapDelete hq, hq1⟩)

theorem nodup_keys_mapSet {κ α : Type} [DecidableEq κ] (k : κ) (v : α) (m : List (κ × α))
    (h : (m.map Prod.fst).Nodup) : ((mapSet k v m).map Prod.fst).Nodup := by
  induction m with
  | nil => simp [mapSet]
  | cons p rest ih =>
    simp only [List.map_cons, List.nodup_cons] at h
    by_cases hpk : p.1 = k
    · simp only [mapSet, hpk, if_pos, List.map_cons, List.nodup_cons]
      exact ⟨hpk ▸ h.1, h.2⟩
    · simp only [mapSet, hpk, if_neg, not_false_iff, List.map_cons, List.nodup_cons]
      refine ⟨?_, ih h.2⟩
      intro hmem
      rcases List.mem_map.mp hmem with ⟨q, hq, hq1⟩
      rcases mem_of_mem_mapSet hq with hq' | hq'
      · exact h.1 (List.mem_map.mpr ⟨q, hq', hq1⟩)
      · exact hpk (by rw [hq'] at hq1; rw [← hq1])

theorem mapGet_isSome_iff_mem_keys {κ α : Type} [DecidableEq κ] (k : κ) (m : List (κ × α)) :
    (mapGet k m).isSome ↔ k ∈ m.map Prod.fst := by
  induction m with
  | nil => simp [mapGet]
  | cons p rest ih =>
    by_cases hpk : p.1 = k
    · simp [mapGet, hpk]
    · have hkp : ¬ k = p.1 := fun h => hpk h.symm
      simp [mapGet, hpk, ih, hkp]

theorem mem_setAdd (j k : String) (s : List String) :
    j ∈ setAdd k s ↔ j = k ∨ j ∈ s := by
  unfold setAdd
  by_cases h : k ∈ s
  · simp only [h, if_pos]
    constructor
    · exact Or.inr
    · rintro (rfl | hj)
      · exact h
      · exact hj
  · simp [h, or_comm]

theorem mem_setRemove (j k : String) (s : List String) :
    j ∈ setRemove k s ↔ j ∈ s ∧ j ≠ k := by
  induction s with
  | nil => simp [setRemove]
  | cons x rest ih =>
    by_cases hxk : x = k
    · subst hxk
      simp only [setRemove, if_pos, List.mem_cons, ih]
      constructor
      · exact fun h => ⟨Or.inr h.1, h.2⟩
      · rintro ⟨rfl | hj, hne⟩
        · exact absurd rfl hne
        · exact ⟨hj, hne⟩
    · simp only [setRemove, hxk, if_neg, not_false_iff, List.mem_cons, ih]
      constructor
      · rintro (rfl | ⟨hj, hne⟩)
        · exact ⟨Or.inl rfl, hxk⟩
        · exact ⟨Or.inr hj, hne⟩
      · rintro ⟨rfl | hj, hne⟩
        · exact Or.inl rfl
        · exact Or.inr ⟨hj, hne⟩

theorem nodup_setAdd (k : String) (s : List String) (h : s.Nodup) :
    (setAdd k s).Nodup := by
  unfold setAdd
  by_cases hk : k ∈ s
  · simpa [hk] using h
  · simp only [hk, if_neg, not_false_iff]
    rw [List.nodup_append]
    exact ⟨h, List.nodup_singleton k, fun a ha hb => hk ((List.mem_singleton.mp hb) ▸ ha)⟩

theorem nodup_setRemove (k : String) (s : List String) (h : s.Nodup) :
    (setRemove k s).Nodup := by
  induction s with
  | nil => simp [setRemove]
  | cons x rest ih =>
    simp only [List.nodup_cons] at h
    by_cases hxk : x = k
    · simp only [setRemove, hxk, if_pos]
      exact ih h.2
    · simp only [setRemove, hxk, if_neg, not_false_iff, List.nodup_cons]
      exact ⟨fun hmem => h.1 ((mem_setRemove x k rest).mp hmem).1, ih h.2⟩

/-! ## AdvancedAgentCoordinator (src/app/lib/cognitive/advanced-coordinator.ts)

Agents carry a capability list; tasks carry required skills.  Scores are
rationals (`confidence` and the utilization weight 0.1 are plain JS
numbers on which the code only does +, -, * and comparison).  The
cooperative execution of `processTasks` is modelled with an explicit
`inFlight` list: `processTasksStep` performs the synchronous part of one
`processTasks` invocation up to the `await` of `executeTask`, and the
`complete` event performs the `finally` block (mark idle, recurse once). -/

structure Capability where
  name : String
  confidence : ℚ
deriving DecidableEq

structure AgentM where
  id : String
  capabilities : List Capability
deriving DecidableEq

structure TaskM where
  id : String
  requiredSkills : List String
deriving DecidableEq

inductive PriorityTier
  | high
  | medium
  | low
deriving DecidableEq

structure CoordMetrics where
  totalTasks : Nat
  completedTasks : Nat
  failedTasks : Nat
  agentUtilization : List (String × ℚ)
deriving DecidableEq

structure CoordState where
  agents : List (String × AgentM)
  activeAgents : List String
  idleAgents : List String
  busyAgents : List (String × Nat)
  queueHigh : List TaskM
  queueMedium : List TaskM
  queueLow : List TaskM
  metrics : CoordMetrics
  maxConcurrentTasks : Nat
  inFlight : List (String × TaskM)
deriving DecidableEq

/-- Constructor state of AdvancedAgentCoordinator. -/
def initCoordState (maxConcurrentTasks : Nat) : CoordState :=
  { agents := []
    activeAgents := []
    idleAgents := []
    busyAgents := []
    queueHigh := []
    queueMedium := []
    queueLow := []
    metrics := { totalTasks := 0, completedTasks := 0, failedTasks := 0, agentUtilization := [] }
    maxConcurrentTasks := maxConcurrentTasks
    inFlight := [] }

/-- registerAgent: add to the agent map, the idle set, and the utilization map. -/
def registerAgent (a : AgentM) (s : CoordState) : CoordState :=
  { s with agents := mapSet a.id a s.agents
           idleAgents := setAdd a.id s.idleAgents
           metrics := { s.metrics with agentUtilization := mapSet a.id 0 s.metrics.agentUtilization } }

/-- unregisterAgent: remove from the agent map and every status set. -/
def unregisterAgent (agentId : String) (s : CoordState) : CoordState :=
  { s with agents := mapDelete agentId s.agents
           activeAgents := setRemove agentId s.activeAgents
           idleAgents := setRemove agentId s.idleAgents
           busyAgents := mapDelete agentId s.busyAgents
           metrics := { s.metrics with agentUtilization := mapDelete agentId s.metrics.agentUtilization } }

/-- Whether the agent has every required skill of the task. -/
def hasRequiredSkills (t : TaskM) (a : AgentM) : Bool :=
  t.requiredSkills.all fun skill => a.capabilities.any fun cap => cap.name == skill

/-- Sum of the confidences of the capabilities matching a required skill. -/
def capabilityScore (t : TaskM) (a : AgentM) : ℚ :=
  ((a.capabilities.filter fun cap => t.requiredSkills.contains cap.name).map
    Capability.confidence).sum

/-- Utilization read from the metrics map, 0 when absent. -/
def utilizationOf (agentId : String) (s : CoordState) : ℚ :=
  (mapGet agentId s.metrics.agentUtilization).getD 0

/-- Score of one candidate agent in getBestAgentForTask: -1 without the
required skills, otherwise capability score minus 0.1 times utilization. -/
def agentScore (t : TaskM) (s : CoordState) (a : AgentM) : ℚ :=
  if hasRequiredSkills t a then capabilityScore t a - utilizationOf a.id s * (1/10) else -1

/-- getBestAgentForTask: score the idle agents, stable-sort descending by
score (JS Array.sort is stable) and take the head if its score is
strictly positive. -/
def getBestAgentForTask (t : TaskM) (s : CoordState) : Option AgentM :=
  if (s.idleAgents.filterMap fun i => mapGet i s.agents).isEmpty then none
  else
    match List.insertionSort (fun x y : AgentM × ℚ => x.2 ≥ y.2)
        ((s.idleAgents.filterMap fun i => mapGet i s.agents).map
          fun a => (a, agentScore t s a)) with
    | [] => none
    | best :: _ => if best.2 > 0 then some best.1 else none

/-- markAgentBusy: move idle → active and bump the busy count. -/
def markAgentBusy (agentId : String) (s : CoordState) : CoordState :=
  let currentCount := (mapGet agentId s.busyAgents).getD 0
  { s with idleAgents := setRemove agentId s.idleAgents
           activeAgents := setAdd agentId s.activeAgents
           busyAgents := mapSet agentId (currentCount + 1) s.busyAgents }

/-- markAgentIdle: with a count of at most one, drop the busy entry and
move active → idle; otherwise only decrement the count. -/
def markAgentIdle (agentId : String) (s : CoordState) : CoordState :=
  let currentCount := (mapGet agentId s.busyAgents).getD 0
  if currentCount ≤ 1 then
    { s with busyAgents := mapDelete agentId s.busyAgents
             activeAgents := setRemove agentId s.activeAgents
             idleAgents := setAdd agentId s.idleAgents }
  else
    { s with busyAgents := mapSet agentId (currentCount - 1) s.busyAgents }

/-- The shift-shift-shift cascade of processTasks: pop the head of the
first nonempty queue in the order high, medium, low. -/
def popTask (s : CoordState) : Option (TaskM × CoordState) :=
  match s.queueHigh with
  | t :: rest => some (t, { s with queueHigh := rest })
  | [] =>
    match s.queueMedium with
    | t :: rest => some (t, { s with queueMedium := rest })
    | [] =>
      match s.queueLow with
      | t :: rest => some (t, { s with queueLow := rest })
      | [] => none

/-- One processTasks invocation up to the await of executeTask: return at
capacity, otherwise pop a task; with no suitable agent push it to the
tail of the medium queue, otherwise mark the agent busy and start the
execution (recorded in inFlight). -/
def processTasksStep (s : CoordState) : CoordState :=
  if s.maxConcurrentTasks ≤ s.busyAgents.length then s
  else
    match popTask s with
    | none => s
    | some (t, s1) =>
      match getBestAgentForTask t s1 with
      | none => { s1 with queueMedium := s1.queueMedium ++ [t] }
      | some a => { markAgentBusy a.id s1 with inFlight := (a.id, t) :: s1.inFlight }

/-- submitTask: enqueue into the tier queue, count the task, process. -/
def submitTask (t : TaskM) (priority : PriorityTier) (s : CoordState) : CoordState :=
  let s1 :=
    match priority with
    | .high => { s with queueHigh := s.queueHigh ++ [t] }
    | .medium => { s with queueMedium := s.queueMedium ++ [t] }
    | .low => { s with queueLow := s.queueLow ++ [t] }
  processTasksStep
    { s1 with metrics := { s1.metrics with totalTasks := s1.metrics.totalTasks + 1 } }

/-- Success and failure counters of updateMetrics (the running average
duration is not modelled; no claim mentions it). -/
def updateMetricsCounters (success : Bool) (m : CoordMetrics) : CoordMetrics :=
  if success then { m with completedTasks := m.completedTasks + 1 }
  else { m with failedTasks := m.failedTasks + 1 }

/-- Remove the first inFlight entry of the agent. -/
def removeFlight (agentId : String) : List (String × TaskM) → List (String × TaskM)
  | [] => []
  | p :: rest => if p.1 = agentId then rest else p :: removeFlight agentId rest

/-- Completion of an execution started by processTasksStep: the metrics
update and the finally block (markAgentIdle, then one recursive
processTasks dispatch attempt).  An agent with no execution in flight
completes nothing. -/
def completeTask (agentId : String) (success : Bool) (s : CoordState) : CoordState :=
  match mapGet agentId s.inFlight with
  | none => s
  | some _ =>
    processTasksStep
      (markAgentIdle agentId
        { s with inFlight := removeFlight agentId s.inFlight
                 metrics := updateMetricsCounters success s.metrics })

/-- External events driving the coordinator. -/
inductive CoordEvent
  | register (a : AgentM)
  | unregister (agentId : String)
  | submit (t : TaskM) (priority : PriorityTier)
  | complete (agentId : String) (success : Bool)

/-- One sequenced turn of the coordinator. -/
def coordStep (s : CoordState) : CoordEvent → CoordState
  | .register a => registerAgent a s
  | .unregister i => unregisterAgent i s
  | .submit t p => submitTask t p s
  | .complete i success => completeTask i success s

/-- Run a list of events in order. -/
def coordRun (s : CoordState) : List CoordEvent → CoordState
  | [] => s
  | e :: es => coordRun (coordStep s e) es

/-! ## Claim C2: agent selection -/

/-- First element of a list achieving the maximal key, if any. -/
def firstMaxBy {α : Type} (key : α → ℚ) : List α → Option α
  | [] => none
  | a :: rest =>
    match firstMaxBy key rest with
    | none => some a
    | some m => if key m > key a then some m else some a

/-- The agent-selection rule as the amended specification words it: the
candidates are the idle agents in idle-set insertion order; the first
candidate achieving the maximal score is selected when that score is
strictly positive, and otherwise no agent is selected. -/
def selectAgentSpec (t : TaskM) (s : CoordState) : Option AgentM :=
  let candidates := s.idleAgents.filterMap fun i => mapGet i s.agents
  match firstMaxBy (agentScore t s) candidates with
  | none => none
  | some m => if agentScore t s m > 0 then some m else none

theorem head?_insertionSort_ge {α : Type} (key : α → ℚ) (l : List α) :
    (List.insertionSort (fun x y => key x ≥ key y) l).head? = firstMaxBy key l := by
  induction l with
  | nil => rfl
  | cons a rest ih =>
    simp only [List.insertionSort]
    cases hs : List.insertionSort (fun x y => key x ≥ key y) rest with
    | nil =>
      have hlen := (List.perm_insertionSort (fun x y : α => key x ≥ key y) rest).length_eq
      rw [hs] at hlen
      have hrest : rest = [] := List.eq_nil_of_length_eq_zero hlen.symm
      subst hrest
      simp [List.orderedInsert, firstMaxBy]
    | cons b tl =>
      rw [hs] at ih
      simp only [List.head?] at ih
      by_cases hab : key a ≥ key b
      · have hnb : ¬ (key b > key a) := not_lt.mpr hab
        simp [List.orderedInsert, hab, firstMaxBy, ← ih, hnb]
      · have hb : key b > key a := lt_of_not_ge hab
        simp [List.orderedInsert, hab, firstMaxBy, ← ih, hb]

theorem firstMaxBy_cons_isSome {α : Type} (key : α → ℚ) (a : α) (rest : List α) :
    (firstMaxBy key (a :: rest)).isSome := by
  simp only [firstMaxBy]
  cases firstMaxBy key rest with
  | none => rfl
  | some m => by_cases h : key m > key a <;> simp [h]

theorem firstMaxBy_map_pair {α : Type} (f : α → ℚ) (l : List α) :
    firstMaxBy (fun p : α × ℚ => p.2) (l.map fun a => (a, f a)) =
      (firstMaxBy f l).map fun a => (a, f a) := by
  induction l with
  | nil => rfl
  | cons a rest ih =>
    simp only [List.map_cons, firstMaxBy, ih]
    cases h : firstMaxBy f rest with
    | none => rfl
    | some m =>
      by_cases hm : f m > f a <;> simp [hm]

/-- Claim C2 (amended): getBestAgentForTask selects exactly as the
amended specification says: candidates are resolved from the idle set in
its insertion order; a candidate lacking a required skill scores -1;
otherwise the score is the summed matching confidence minus 0.1 times
the utilization; the first candidate attaining the maximal score is
selected if and only if that score is strictly positive. -/
theorem getBestAgentForTask_eq_selectAgentSpec (t : TaskM) (s : CoordState) :
    getBestAgentForTask t s = selectAgentSpec t s := by
  unfold getBestAgentForTask selectAgentSpec
  cases hc : s.idleAgents.filterMap fun i => mapGet i s.agents with
  | nil => simp [firstMaxBy]
  | cons c cs =>
    simp only [List.isEmpty_cons, if_neg, Bool.false_eq_true, not_false_iff]
    have hhead := head?_insertionSort_ge (fun p : AgentM × ℚ => p.2)
      ((c :: cs).map fun a => (a, agentScore t s a))
    rw [firstMaxBy_map_pair] at hhead
    cases hfm : firstMaxBy (agentScore t s) (c :: cs) with
    | none =>
      have hsome := firstMaxBy_cons_isSome (agentScore t s) c cs
      rw [hfm] at hsome
      cases hsome
    | some m =>
      rw [hfm] at hhead
      cases hsort : List.insertionSort (fun x y : AgentM × ℚ => x.2 ≥ y.2)
          ((c :: cs).map fun a => (a, agentScore t s a)) with
      | nil => rw [hsort] at hhead; simp at hhead
      | cons best tl =>
        rw [hsort] at hhead
        have hb : best = (m, agentScore t s m) := by simpa using hhead
        simp [hb]

/-! ## Concrete coordinator scenarios -/

/-- An agent with the single capability x at confidence 0.9. -/
def agentA : AgentM := { id := "A", capabilities := [{ name := "x", confidence := 9/10 }] }

/-- An agent whose only matching capability has confidence 0. -/
def agentZ : AgentM := { id := "Z", capabilities := [{ name := "x", confidence := 0 }] }

/-- A task requiring skill x. -/
def taskT : TaskM := { id := "T", requiredSkills := ["x"] }

/-- A first medium-tier task requiring skill x. -/
def taskM1 : TaskM := { id := "M1", requiredSkills := ["x"] }

/-- A second medium-tier task requiring skill x. -/
def taskM2 : TaskM := { id := "M2", requiredSkills := ["x"] }

/-- A high-tier task requiring skill x. -/
def taskH : TaskM := { id := "H", requiredSkills := ["x"] }

/-- State with only agentZ registered (and idle). -/
def stateZ : CoordState := coordRun (initCoordState 10) [.register agentZ]

/-- Claim C2 counterexample: agentZ is the sole idle candidate, has every
required skill of taskT, and scores exactly 0; the claim says a sole
fully-qualified candidate with score exactly 0 is selected, but
getBestAgentForTask selects nobody (the code demands a strictly positive
score). -/
theorem getBest_zero_score_counterexample :
    hasRequiredSkills taskT agentZ = true ∧
    agentScore taskT stateZ agentZ = 0 ∧
    stateZ.idleAgents = ["Z"] ∧
    mapGet "Z" stateZ.agents = some agentZ ∧
    getBestAgentForTask taskT stateZ = none := by decide

/-- State after: register agentA; submit taskM1 (medium, dispatched to
agentA, still executing); submit taskM2 (medium, queued: no idle agent). -/
def busyCoordState : CoordState :=
  coordRun (initCoordState 10) [.register agentA, .submit taskM1 .medium, .submit taskM2 .medium]

/-- Claim C1 counterexample: taskH is submitted high while no idle agent
exists; processTasks demotes it to the tail of the medium queue, behind
the earlier-enqueued medium taskM2.  When agentA becomes available, the
earlier medium task taskM2 is dispatched and the high task taskH is
still queued — the high task is not dispatched ahead of it. -/
theorem high_priority_demotion_counterexample :
    busyCoordState.idleAgents = [] ∧
    busyCoordState.queueMedium = [taskM2] ∧
    (coordStep busyCoordState (.submit taskH .high)).queueMedium = [taskM2, taskH] ∧
    (coordRun busyCoordState [.submit taskH .high, .complete "A" true]).inFlight
      = [("A", taskM2)] ∧
    (coordRun busyCoordState [.submit taskH .high, .complete "A" true]).queueMedium
      = [taskH] := by decide

/-- Claim C1 (amended): one dispatch attempt below the concurrency limit
pops the head of the high queue before any medium or low task; if no
idle agent scores positively the popped task is re-enqueued at the tail
of the MEDIUM queue (losing its high tier), so it can be dispatched
after medium tasks enqueued earlier; if an agent is selected, that agent
is marked busy and the task starts executing. -/
theorem processTasks_pops_high_then_demotes (s : CoordState) (t : TaskM) (rest : List TaskM)
    (hcap : s.busyAgents.length < s.maxConcurrentTasks)
    (hq : s.queueHigh = t :: rest) :
    (getBestAgentForTask t { s with queueHigh := rest } = none →
      processTasksStep s = { s with queueHigh := rest, queueMedium := s.queueMedium ++ [t] }) ∧
    (∀ a, getBestAgentForTask t { s with queueHigh := rest } = some a →
      processTasksStep s =
        { markAgentBusy a.id { s with queueHigh := rest } with
            inFlight := (a.id, t) :: s.inFlight }) := by
  have hcap' : ¬ s.maxConcurrentTasks ≤ s.busyAgents.length := not_le.mpr hcap
  constructor
  · intro hnone
    simp [processTasksStep, popTask, hq, hcap', hnone]
  · intro a ha
    simp [processTasksStep, popTask, hq, hcap', ha]

/-- A state whose high queue holds taskH and that has no agents. -/
def lonelyHighState : CoordState := { initCoordState 10 with queueHigh := [taskH] }

/-- Witness for the amended C1 theorem at a concrete state. -/
theorem processTasks_pops_high_then_demotes_witness :
    lonelyHighState.busyAgents.length < lonelyHighState.maxConcurrentTasks ∧
    processTasksStep lonelyHighState = { lonelyHighState with queueHigh := [], queueMedium := [taskH] } := by
  refine ⟨by decide, ?_⟩
  have h := (processTasks_pops_high_then_demotes lonelyHighState taskH [] (by decide) rfl).1
    (by decide)
  simpa using h

/-- State in which agentA is executing taskT. -/
def executingState : CoordState :=
  coordRun (initCoordState 10) [.register agentA, .submit taskT .high]

/-- Claim C6 counterexample: agentA currently holds taskT; unregistering
it removes it from every set but leaves the held execution in flight and
fails no task (failedTasks stays 0), contradicting the claim that any
held task is marked failed. -/
theorem unregister_does_not_fail_held_task :
    executingState.inFlight = [("A", taskT)] ∧
    (unregisterAgent "A" executingState).inFlight = [("A", taskT)] ∧
    (unregisterAgent "A" executingState).metrics.failedTasks = 0 ∧
    executingState.metrics.failedTasks = 0 := by decide

/-- Claim C6 (amended): unregisterAgent removes the agent from the agent
map, the idle set, the active set, the busy map and the utilization map,
and changes nothing else: in-flight executions, the failure counter and
the task queues are untouched (no held task is failed or released). -/
theorem unregisterAgent_removes_from_sets_only (agentId : String) (s : CoordState) :
    mapGet agentId (unregisterAgent agentId s).agents = none ∧
    agentId ∉ (unregisterAgent agentId s).idleAgents ∧
    agentId ∉ (unregisterAgent agentId s).activeAgents ∧
    mapGet agentId (unregisterAgent agentId s).busyAgents = none ∧
    mapGet agentId (unregisterAgent agentId s).metrics.agentUtilization = none ∧
    (unregisterAgent agentId s).inFlight = s.inFlight ∧
    (unregisterAgent agentId s).metrics.failedTasks = s.metrics.failedTasks ∧
    (unregisterAgent agentId s).queueHigh = s.queueHigh ∧
    (unregisterAgent agentId s).queueMedium = s.queueMedium ∧
    (unregisterAgent agentId s).queueLow = s.queueLow := by
  refine ⟨?_, ?_, ?_, ?_, ?_, rfl, rfl, rfl, rfl, rfl⟩
  · simpa using mapGet_mapDelete agentId agentId s.agents
  · simp [unregisterAgent, mem_setRemove]
  · simp [unregisterAgent, mem_setRemove]
  · simpa using mapGet_mapDelete agentId agentId s.busyAgents
  · simpa using mapGet_mapDelete agentId agentId s.metrics.agentUtilization

/-- State reached by: register agentA; dispatch taskT to it; unregister
agentA while it is still executing; let the execution complete. -/
def ghostIdleState : CoordState :=
  coordRun (initCoordState 10)
    [.register agentA, .submit taskT .high, .unregister "A", .complete "A" true]

/-- Claim C5 counterexample: after unregistering an agent that is still
executing, the completion of that execution re-adds the agent id to the
idle set although it is no longer registered; the resulting state lies
between two task executions (nothing is in flight) and violates
idle ∪ active = registered agents. -/
theorem pool_invariant_counterexample :
    ghostIdleState.inFlight = [] ∧
    ghostIdleState.idleAgents = ["A"] ∧
    ghostIdleState.agents = [] ∧
    ¬ (((mapGet "A" ghostIdleState.agents).isSome = true) ↔
        ("A" ∈ ghostIdleState.idleAgents ∨ "A" ∈ ghostIdleState.activeAgents)) := by decide


/-! ## Claim C5: the pool invariant -/

/-- Strengthened inductive invariant of the agent pool.  The claim's
invariant is the pair disj / union; the remaining fields are needed to
push it through busy/idle transitions. -/
structure CoordInv (s : CoordState) : Prop where
  keyed : ∀ i a, mapGet i s.agents = some a → a.id = i
  disj : ∀ i, i ∈ s.idleAgents → i ∉ s.activeAgents
  union : ∀ i, (mapGet i s.agents).isSome ↔ (i ∈ s.idleAgents ∨ i ∈ s.activeAgents)
  busyActive : ∀ i, (mapGet i s.busyAgents).isSome ↔ i ∈ s.activeAgents
  busyOne : ∀ i n, mapGet i s.busyAgents = some n → n = 1
  flightBusy : ∀ i, (mapGet i s.inFlight).isSome ↔ (mapGet i s.busyAgents).isSome
  flightNodup : (s.inFlight.map Prod.fst).Nodup

theorem coordInv_congr (s s2 : CoordState) (inv : CoordInv s)
    (h1 : s2.agents = s.agents) (h2 : s2.idleAgents = s.idleAgents)
    (h3 : s2.activeAgents = s.activeAgents) (h4 : s2.busyAgents = s.busyAgents)
    (h5 : s2.inFlight = s.inFlight) : CoordInv s2 := by
  constructor
  · rw [h1]; exact inv.keyed
  · rw [h2, h3]; exact inv.disj
  · rw [h1, h2, h3]; exact inv.union
  · rw [h4, h3]; exact inv.busyActive
  · rw [h4]; exact inv.busyOne
  · rw [h5, h4]; exact inv.flightBusy
  · rw [h5]; exact inv.flightNodup

theorem mapGet_removeFlight_ne (i j : String) (l : List (String × TaskM)) (hne : ¬ i = j) :
    mapGet j (removeFlight i l) = mapGet j l := by
  have hji : ¬ j = i := fun h => hne h.symm
  induction l with
  | nil => rfl
  | cons p rest ih =>
    by_cases hpi : p.1 = i
    · have hpj : ¬ p.1 = j := fun h => hne (hpi ▸ h)
      simp [removeFlight, mapGet, hpi, hpj, hne, hji]
    · by_cases hpj : p.1 = j <;> simp [removeFlight, mapGet, hpi, hpj, hne, hji, ih]

theorem mapGet_removeFlight_self (i : String) (l : List (String × TaskM))
    (h : (l.map Prod.fst).Nodup) : mapGet i (removeFlight i l) = none := by
  induction l with
  | nil => rfl
  | cons p rest ih =>
    simp only [List.map_cons, List.nodup_cons] at h
    by_cases hpi : p.1 = i
    · simp only [removeFlight, hpi, if_pos]
      cases hget : mapGet i rest with
      | none => rfl
      | some v =>
        have : i ∈ rest.map Prod.fst :=
          (mapGet_isSome_iff_mem_keys i rest).mp (by rw [hget]; rfl)
        exact absurd (hpi ▸ this) h.1
    · simp only [removeFlight, hpi, if_neg, not_false_iff, mapGet]
      simpa [hpi] using ih h.2

theorem mem_of_mem_removeFlight {q : String × TaskM} {i : String}
    {l : List (String × TaskM)} (h : q ∈ removeFlight i l) : q ∈ l := by
  induction l with
  | nil => simp [removeFlight] at h
  | cons p rest ih =>
    by_cases hpi : p.1 = i
    · simp only [removeFlight, hpi, if_pos] at h
      exact List.mem_cons_of_mem _ h
    · simp only [removeFlight, hpi, if_neg, not_false_iff, List.mem_cons] at h
      rcases h with h | h
      · exact h ▸ List.mem_cons_self _ _
      · exact List.mem_cons_of_mem _ (ih h)

theorem nodup_keys_removeFlight (i : String) (l : List (String × TaskM))
    (h : (l.map Prod.fst).Nodup) : ((removeFlight i l).map Prod.fst).Nodup := by
  induction l with
  | nil => simp [removeFlight]
  | cons p rest ih =>
    simp only [List.map_cons, List.nodup_cons] at h
    by_cases hpi : p.1 = i
    · simp only [removeFlight, hpi, if_pos]
      exact h.2
    · simp only [removeFlight, hpi, if_neg, not_false_iff, List.map_cons, List.nodup_cons]
      refine ⟨?_, ih h.2⟩
      intro hmem
      rcases List.mem_map.mp hmem with ⟨q, hq, hq1⟩
      exact h.1 (List.mem_map.mpr ⟨q, mem_of_mem_removeFlight hq, hq1⟩)

theorem getBest_mem_idle (t : TaskM) (s : CoordState) (a : AgentM)
    (hk : ∀ i b, mapGet i s.agents = some b → b.id = i)
    (h : getBestAgentForTask t s = some a) :
    a.id ∈ s.idleAgents ∧ mapGet a.id s.agents = some a := by
  unfold getBestAgentForTask at h
  by_cases hemp : (s.idleAgents.filterMap fun i => mapGet i s.agents).isEmpty
  · simp [hemp] at h
  · rw [if_neg hemp] at h
    cases hs : List.insertionSort (fun x y : AgentM × ℚ => x.2 ≥ y.2)
        ((s.idleAgents.filterMap fun i => mapGet i s.agents).map
          fun b => (b, agentScore t s b)) with
    | nil => rw [hs] at h; cases h
    | cons best tl =>
      rw [hs] at h
      dsimp only at h
      by_cases hpos : best.2 > 0
      · rw [if_pos hpos] at h
        have hmem : best ∈ List.insertionSort (fun x y : AgentM × ℚ => x.2 ≥ y.2)
            ((s.idleAgents.filterMap fun i => mapGet i s.agents).map
              fun b => (b, agentScore t s b)) := by
          rw [hs]; exact List.mem_cons_self _ _
        have hscored := (List.perm_insertionSort (fun x y : AgentM × ℚ => x.2 ≥ y.2)
          ((s.idleAgents.filterMap fun i => mapGet i s.agents).map
            fun b => (b, agentScore t s b))).mem_iff.mp hmem
        rcases List.mem_map.mp hscored with ⟨c, hc, hceq⟩
        rcases List.mem_filterMap.mp hc with ⟨i, hi, hlookup⟩
        have hbc : best.1 = c := by rw [← hceq]
        have hid : c.id = i := hk i c hlookup
        have hac : a = c := by
          injection h with h2
          rw [← h2, hbc]
        subst hac
        exact ⟨hid ▸ hi, hid ▸ hlookup⟩
      · rw [if_neg hpos] at h; cases h

theorem coordInv_register (a : AgentM) (s : CoordState) (inv : CoordInv s)
    (hfresh : mapGet a.id s.agents = none) : CoordInv (registerAgent a s) := by
  have hunion := inv.union a.id
  rw [hfresh] at hunion
  simp only [Option.isSome_none, Bool.false_eq_true, false_iff, not_or] at hunion
  refine ⟨?_, ?_, ?_, ?_, ?_, ?_, ?_⟩ <;> dsimp only [registerAgent]
  · intro i b hb
    rw [mapGet_mapSet] at hb
    by_cases hai : a.id = i
    · rw [if_pos hai] at hb
      injection hb with hb
      rw [← hb]; exact hai
    · rw [if_neg hai] at hb; exact inv.keyed i b hb
  · intro i hi
    rw [mem_setAdd] at hi
    rcases hi with rfl | hi
    · exact hunion.2
    · exact inv.disj i hi
  · intro i
    rw [mapGet_mapSet, mem_setAdd]
    by_cases hai : a.id = i
    · subst hai; simp
    · have hia : ¬ i = a.id := fun h => hai h.symm
      rw [if_neg hai]
      simp [hia, inv.union i]
  · exact inv.busyActive
  · exact inv.busyOne
  · exact inv.flightBusy
  · exact inv.flightNodup

theorem coordInv_unregister (i0 : String) (s : CoordState) (inv : CoordInv s)
    (hnof : mapGet i0 s.inFlight = none) : CoordInv (unregisterAgent i0 s) := by
  refine ⟨?_, ?_, ?_, ?_, ?_, ?_, ?_⟩ <;> dsimp only [unregisterAgent]
  · intro i b hb
    rw [mapGet_mapDelete] at hb
    by_cases h : i0 = i
    · rw [if_pos h] at hb; cases hb
    · rw [if_neg h] at hb; exact inv.keyed i b hb
  · intro i hi
    rw [mem_setRemove] at hi
    rw [mem_setRemove]
    exact fun hc => inv.disj i hi.1 hc.1
  · intro i
    rw [mapGet_mapDelete, mem_setRemove, mem_setRemove]
    by_cases h : i0 = i
    · subst h; simp
    · have hii : i ≠ i0 := fun hh => h hh.symm
      simp [h, hii, inv.union i]
  · intro i
    rw [mapGet_mapDelete, mem_setRemove]
    by_cases h : i0 = i
    · subst h; simp
    · have hii : i ≠ i0 := fun hh => h hh.symm
      simp [h, hii, inv.busyActive i]
  · intro i n hn
    rw [mapGet_mapDelete] at hn
    by_cases h : i0 = i
    · rw [if_pos h] at hn; cases hn
    · rw [if_neg h] at hn; exact inv.busyOne i n hn
  · intro i
    rw [mapGet_mapDelete]
    by_cases h : i0 = i
    · subst h; simp [hnof]
    · rw [if_neg h]; exact inv.flightBusy i
  · exact inv.flightNodup

theorem coordInv_dispatch (s : CoordState) (a : AgentM) (t : TaskM) (inv : CoordInv s)
    (hidle : a.id ∈ s.idleAgents) (hreg : mapGet a.id s.agents = some a) :
    CoordInv { markAgentBusy a.id s with inFlight := (a.id, t) :: s.inFlight } := by
  have hnact : a.id ∉ s.activeAgents := inv.disj a.id hidle
  have hbnone : mapGet a.id s.busyAgents = none := by
    cases hb : mapGet a.id s.busyAgents with
    | none => rfl
    | some n => exact absurd ((inv.busyActive a.id).mp (by rw [hb]; rfl)) hnact
  have hfnone : mapGet a.id s.inFlight = none := by
    cases hf : mapGet a.id s.inFlight with
    | none => rfl
    | some u =>
      have hx := (inv.flightBusy a.id).mp (by rw [hf]; rfl)
      rw [hbnone] at hx
      simp at hx
  refine ⟨?_, ?_, ?_, ?_, ?_, ?_, ?_⟩ <;> dsimp only [markAgentBusy]
  · exact inv.keyed
  · intro i hi
    rw [mem_setRemove] at hi
    rw [mem_setAdd]
    rintro (rfl | hact)
    · exact hi.2 rfl
    · exact inv.disj i hi.1 hact
  · intro i
    rw [mem_setRemove, mem_setAdd]
    by_cases h : i = a.id
    · subst h; simp [hreg]
    · simp [h, inv.union i]
  · intro i
    rw [mapGet_mapSet, mem_setAdd]
    by_cases h : a.id = i
    · subst h; simp
    · have hia : ¬ i = a.id := fun hh => h hh.symm
      rw [if_neg h]
      simp [hia, inv.busyActive i]
  · intro i n hn
    rw [mapGet_mapSet] at hn
    by_cases h : a.id = i
    · rw [if_pos h, hbnone] at hn
      injection hn with hn
      simp only [Option.getD_none] at hn
      omega
    · rw [if_neg h] at hn; exact inv.busyOne i n hn
  · intro i
    rw [mapGet_mapSet]
    show (mapGet i ((a.id, t) :: s.inFlight)).isSome ↔ _
    by_cases h : a.id = i
    · simp [mapGet, h]
    · rw [if_neg h]
      simp only [mapGet, h, if_neg, not_false_iff]
      exact inv.flightBusy i
  · show (((a.id, t) :: s.inFlight).map Prod.fst).Nodup
    simp only [List.map_cons, List.nodup_cons]
    refine ⟨?_, inv.flightNodup⟩
    intro hmem
    have hs := (mapGet_isSome_iff_mem_keys a.id s.inFlight).mpr hmem
    rw [hfnone] at hs
    simp at hs

theorem coordInv_afterComplete (i0 : String) (s : CoordState) (m2 : CoordMetrics)
    (inv : CoordInv s) (hf : (mapGet i0 s.inFlight).isSome) :
    CoordInv (markAgentIdle i0
      { s with inFlight := removeFlight i0 s.inFlight, metrics := m2 }) := by
  have hbsome := (inv.flightBusy i0).mp hf
  obtain ⟨n, hb⟩ : ∃ n, mapGet i0 s.busyAgents = some n := by
    cases hbb : mapGet i0 s.busyAgents with
    | none => rw [hbb] at hbsome; simp at hbsome
    | some n => exact ⟨n, rfl⟩
  have hn1 : n = 1 := inv.busyOne i0 n hb
  subst hn1
  have hact : i0 ∈ s.activeAgents := (inv.busyActive i0).mp hbsome
  unfold markAgentIdle
  dsimp only
  rw [hb]
  simp only [Option.getD_some, le_refl, if_pos]
  refine ⟨?_, ?_, ?_, ?_, ?_, ?_, ?_⟩ <;> dsimp only
  · exact inv.keyed
  · intro i hi
    rw [mem_setAdd] at hi
    rw [mem_setRemove]
    rintro ⟨hia, hne⟩
    rcases hi with rfl | hi
    · exact hne rfl
    · exact inv.disj i hi hia
  · intro i
    rw [mem_setAdd, mem_setRemove]
    by_cases h : i = i0
    · subst h
      have hsome : (mapGet i s.agents).isSome := (inv.union i).mpr (Or.inr hact)
      simp [hsome]
    · simp [h, inv.union i]
  · intro i
    rw [mapGet_mapDelete, mem_setRemove]
    by_cases h : i0 = i
    · subst h; simp
    · have hii : i ≠ i0 := fun hh => h hh.symm
      simp [h, hii, inv.busyActive i]
  · intro i k hk
    rw [mapGet_mapDelete] at hk
    by_cases h : i0 = i
    · rw [if_pos h] at hk; cases hk
    · rw [if_neg h] at hk; exact inv.busyOne i k hk
  · intro i
    rw [mapGet_mapDelete]
    by_cases h : i0 = i
    · subst h
      rw [mapGet_removeFlight_self i0 s.inFlight inv.flightNodup]
      simp
    · rw [mapGet_removeFlight_ne i0 i s.inFlight h, if_neg h]
      exact inv.flightBusy i
  · exact nodup_keys_removeFlight i0 s.inFlight inv.flightNodup

theorem popTask_fields (s : CoordState) (t : TaskM) (s1 : CoordState)
    (h : popTask s = some (t, s1)) :
    s1.agents = s.agents ∧ s1.idleAgents = s.idleAgents ∧
    s1.activeAgents = s.activeAgents ∧ s1.busyAgents = s.busyAgents ∧
    s1.inFlight = s.inFlight := by
  unfold popTask at h
  cases hh : s.queueHigh with
  | cons a l =>
    rw [hh] at h
    simp only [Option.some_inj, Prod.mk.injEq] at h
    rw [← h.2]
    exact ⟨rfl, rfl, rfl, rfl, rfl⟩
  | nil =>
    rw [hh] at h
    cases hm : s.queueMedium with
    | cons a l =>
      rw [hm] at h
      simp only [Option.some_inj, Prod.mk.injEq] at h
      rw [← h.2]
      exact ⟨rfl, rfl, rfl, rfl, rfl⟩
    | nil =>
      rw [hm] at h
      cases hl : s.queueLow with
      | cons a l =>
        rw [hl] at h
        simp only [Option.some_inj, Prod.mk.injEq] at h
        rw [← h.2]
        exact ⟨rfl, rfl, rfl, rfl, rfl⟩
      | nil => rw [hl] at h; cases h

theorem coordInv_processTasksStep (s : CoordState) (inv : CoordInv s) :
    CoordInv (processTasksStep s) := by
  unfold processTasksStep
  by_cases hcap : s.maxConcurrentTasks ≤ s.busyAgents.length
  · rw [if_pos hcap]; exact inv
  · rw [if_neg hcap]
    cases hpop : popTask s with
    | none => exact inv
    | some ts =>
      obtain ⟨t, s1⟩ := ts
      dsimp only
      obtain ⟨f1, f2, f3, f4, f5⟩ := popTask_fields s t s1 hpop
      have inv1 : CoordInv s1 := coordInv_congr s s1 inv f1 f2 f3 f4 f5
      cases hbest : getBestAgentForTask t s1 with
      | none => exact coordInv_congr s1 _ inv1 rfl rfl rfl rfl rfl
      | some a =>
        have hm := getBest_mem_idle t s1 a inv1.keyed hbest
        exact coordInv_dispatch s1 a t inv1 hm.1 hm.2

theorem coordInv_completeTask (i : String) (success : Bool) (s : CoordState)
    (inv : CoordInv s) : CoordInv (completeTask i success s) := by
  unfold completeTask
  cases hf : mapGet i s.inFlight with
  | none => exact inv
  | some t =>
    apply coordInv_processTasksStep
    exact coordInv_afterComplete i s _ inv (by rw [hf]; rfl)

theorem coordInv_submitTask (t : TaskM) (p : PriorityTier) (s : CoordState)
    (inv : CoordInv s) : CoordInv (submitTask t p s) := by
  unfold submitTask
  apply coordInv_processTasksStep
  cases p <;> exact coordInv_congr s _ inv rfl rfl rfl rfl rfl

theorem coordInv_init (n : Nat) : CoordInv (initCoordState n) := by
  constructor <;> simp [initCoordState, mapGet]

/-- Well-formed use of the coordinator: an agent is registered only
under an id that is not currently registered, and never unregistered
while it is executing a task. -/
def wfEvent (s : CoordState) : CoordEvent → Bool
  | .register a => (mapGet a.id s.agents).isNone
  | .unregister i => (mapGet i s.inFlight).isNone
  | .submit _ _ => true
  | .complete _ _ => true

/-- Well-formedness of a whole event trace. -/
def wfTrace : CoordState → List CoordEvent → Bool
  | _, [] => true
  | s, e :: es => wfEvent s e && wfTrace (coordStep s e) es

theorem coordInv_step (s : CoordState) (e : CoordEvent) (inv : CoordInv s)
    (hwf : wfEvent s e = true) : CoordInv (coordStep s e) := by
  cases e with
  | register a =>
    simp only [wfEvent, Option.isNone_iff_eq_none] at hwf
    exact coordInv_register a s inv hwf
  | unregister i =>
    simp only [wfEvent, Option.isNone_iff_eq_none] at hwf
    exact coordInv_unregister i s inv hwf
  | submit t p => exact coordInv_submitTask t p s inv
  | complete i success => exact coordInv_completeTask i success s inv

theorem coordInv_run (s : CoordState) (evs : List CoordEvent) (inv : CoordInv s)
    (hwf : wfTrace s evs = true) : CoordInv (coordRun s evs) := by
  induction evs generalizing s with
  | nil => exact inv
  | cons e es ih =>
    simp only [wfTrace, Bool.and_eq_true] at hwf
    exact ih (coordStep s e) (coordInv_step s e inv hwf.1) hwf.2

/-- Claim C5 (amended): along every well-formed event trace — agents are
registered under fresh ids and never unregistered while executing — the
states between turns satisfy the pool invariant: idleAgents and
activeAgents are disjoint and their union is exactly the registered
agents.  (Without well-formedness this fails: see the counterexample of
an agent unregistered while executing.) -/
theorem pool_invariant_holds (n : Nat) (evs : List CoordEvent)
    (hwf : wfTrace (initCoordState n) evs = true) :
    (∀ i, i ∈ (coordRun (initCoordState n) evs).idleAgents →
        i ∉ (coordRun (initCoordState n) evs).activeAgents) ∧
    (∀ i, (mapGet i (coordRun (initCoordState n) evs).agents).isSome ↔
        (i ∈ (coordRun (initCoordState n) evs).idleAgents ∨
         i ∈ (coordRun (initCoordState n) evs).activeAgents)) :=
  ⟨(coordInv_run _ evs (coordInv_init n) hwf).disj,
   (coordInv_run _ evs (coordInv_init n) hwf).union⟩

/-- Witness for the amended C5 theorem on a concrete well-formed trace. -/
theorem pool_invariant_holds_witness :
    wfTrace (initCoordState 2)
      [.register agentA, .submit taskT .high, .complete "A" true] = true ∧
    ((∀ i, i ∈ (coordRun (initCoordState 2)
          [.register agentA, .submit taskT .high, .complete "A" true]).idleAgents →
        i ∉ (coordRun (initCoordState 2)
          [.register agentA, .submit taskT .high, .complete "A" true]).activeAgents) ∧
      (∀ i, (mapGet i (coordRun (initCoordState 2)
            [.register agentA, .submit taskT .high, .complete "A" true]).agents).isSome ↔
          (i ∈ (coordRun (initCoordState 2)
            [.register agentA, .submit taskT .high, .complete "A" true]).idleAgents ∨
           i ∈ (coordRun (initCoordState 2)
            [.register agentA, .submit taskT .high, .complete "A" true]).activeAgents))) :=
  ⟨by decide, pool_invariant_holds 2 _ (by decide)⟩

/-! ## MemoryManager (src/unnamed/part_009)

Records carry only the fields the modelled methods read (type and
metadata never influence store / retrieve / evict / import).  Ids are
drawn from a fresh counter, modelling generateId uniqueness.  The
pluggable embedding generator is a parameter.  JS numbers appearing in
score arithmetic become rationals, except retrieval scores, which use
Math.log and therefore live in ℝ. -/

structure Memory where
  id : Nat
  content : String
  embedding : Option (List ℚ)
  relevanceScore : ℚ
  timestamp : Nat
  accessCount : Nat
deriving DecidableEq

/-- Argument of store: a record without id / timestamp / accessCount. -/
structure MemoryInput where
  content : String
  embedding : Option (List ℚ)
  relevanceScore : ℚ
deriving DecidableEq

structure MemoryConfig where
  enabled : Bool
  maxMemories : Nat
deriving DecidableEq

structure MemState where
  config : MemoryConfig
  memories : List (Nat × Memory)
  embeddings : List (Nat × List ℚ)
  nextId : Nat
deriving DecidableEq

/-- Constructor state of MemoryManager. -/
def initMemState (config : MemoryConfig) : MemState :=
  { config := config, memories := [], embeddings := [], nextId := 0 }

/-- Helper of memWords: cut a lowercased character stream at whitespace
runs, dropping empty segments. -/
def wordsAux (current : List Char) : List Char → List String
  | [] => if current.isEmpty then [] else [String.mk current.reverse]
  | c :: rest =>
    if c.isWhitespace then
      if current.isEmpty then wordsAux [] rest
      else String.mk current.reverse :: wordsAux [] rest
    else wordsAux (c :: current) rest

/-- The words of text.toLowerCase().split on whitespace runs. -/
def memWords (s : String) : List String := wordsAux [] (s.data.map Char.toLower)

/-- keywordSimilarity: the fraction of the distinct query words found
among the content words (JS Sets become deduplicated lists). -/
def keywordSimilarity (query content : String) : ℚ :=
  ((((memWords query).dedup.filter fun w => w ∈ (memWords content).dedup).length : ℚ) /
    (((memWords query).dedup.length : ℚ)))

/-- The eviction score of evictLeastRelevant:
0.5 · relevance + 0.3 · accessCount/100 + 0.2 · (1 − ageDays/30). -/
def evictionScore (now : Nat) (m : Memory) : ℚ :=
  m.relevanceScore * 0.5 + ((m.accessCount : ℚ) / 100) * 0.3 +
    (1 - ((now : ℚ) - (m.timestamp : ℚ)) / (1000 * 60 * 60 * 24 * 30)) * 0.2

/-- The stored records scored and stable-sorted ascending by eviction
score (JS Array.sort with a.score − b.score). -/
def evictScored (now : Nat) (s : MemState) : List (Memory × ℚ) :=
  List.insertionSort (fun a b : Memory × ℚ => a.2 ≤ b.2)
    ((s.memories.map Prod.snd).map fun m => (m, evictionScore now m))

/-- Number of records evicted on overflow: the ceiling of a tenth of the
current record count (Math.ceil of length · 0.1). -/
def evictCount (s : MemState) : Nat := (s.memories.length + 9) / 10

/-- MemoryManager.delete restricted to its effect on the two maps. -/
def memDeleteId (i : Nat) (s : MemState) : MemState :=
  { s with memories := mapDelete i s.memories, embeddings := mapDelete i s.embeddings }

/-- evictLeastRelevant: delete the lowest-scoring ceil(10%) records. -/
def evictLeastRelevant (now : Nat) (s : MemState) : MemState :=
  ((evictScored now s).take (evictCount s)).foldl
    (fun acc item => memDeleteId item.1.id acc) s

/-- store: build the full record (fresh id, timestamp now, accessCount
0), compute an embedding when enabled, evict when at or above capacity,
then insert. -/
def store (input : MemoryInput) (now : Nat) (embedFn : String → List ℚ)
    (s : MemState) : MemState :=
  let mem0 : Memory :=
    { id := s.nextId, content := input.content, embedding := input.embedding,
      relevanceScore := input.relevanceScore, timestamp := now, accessCount := 0 }
  let withEmbedding :=
    if s.config.enabled then
      ({ mem0 with embedding := some (embedFn input.content) },
        { s with embeddings := mapSet s.nextId (embedFn input.content) s.embeddings })
    else (mem0, s)
  let s2 :=
    if withEmbedding.2.config.maxMemories ≤ withEmbedding.2.memories.length then
      evictLeastRelevant now withEmbedding.2
    else withEmbedding.2
  { s2 with memories := mapSet withEmbedding.1.id withEmbedding.1 s2.memories
            nextId := s2.nextId + 1 }

/-- A sequence of store calls (each with its clock reading). -/
def storeRun (embedFn : String → List ℚ) (s : MemState) :
    List (MemoryInput × Nat) → MemState
  | [] => s
  | (input, now) :: rest => storeRun embedFn (store input now embedFn s) rest

/-- One iteration of the import method's forEach: set the record into
the memory map and, when it has an embedding, into the embedding map. -/
def importStep (acc : MemState) (m : Memory) : MemState :=
  let acc1 := { acc with memories := mapSet m.id m acc.memories }
  match m.embedding with
  | some e => { acc1 with embeddings := mapSet m.id e acc1.embeddings }
  | none => acc1

/-- The import method: set every given record into the two maps,
unconditionally, with no capacity check and no eviction. -/
def importMemories (ms : List Memory) (s : MemState) : MemState :=
  ms.foldl importStep s

/-- cosineSimilarity of two vectors, 0 when a magnitude is 0. -/
noncomputable def cosineSimilarity (a b : List ℚ) : ℝ :=
  let dotProduct := (((a.zip b).map fun p => p.1 * p.2).sum : ℚ)
  let magnitudeA := ((a.map fun x => x * x).sum : ℚ)
  let magnitudeB := ((b.map fun x => x * x).sum : ℚ)
  let magnitude := Real.sqrt (magnitudeA : ℝ) * Real.sqrt (magnitudeB : ℝ)
  if magnitude = 0 then 0 else (dotProduct : ℝ) / magnitude

/-- The retrieval score of one record: similarity (cosine when the
record has an embedding, keyword overlap otherwise) plus 0.1 times the
recency boost plus 0.05 times accessBoost, where accessBoost is
log(accessCount + 1) / 10. -/
noncomputable def retrieveScore (now : Nat) (queryEmbedding : List ℚ)
    (query : String) (m : Memory) : ℝ :=
  let similarity : ℝ :=
    match m.embedding with
    | some e => cosineSimilarity queryEmbedding e
    | none => ((keywordSimilarity query m.content : ℚ) : ℝ)
  let recencyBoost : ℝ := 1 / (1 + ((now : ℝ) - (m.timestamp : ℝ)) / (1000 * 60 * 60 * 24))
  let accessBoost : ℝ := Real.log ((m.accessCount : ℝ) + 1) / 10
  similarity + recencyBoost * 0.1 + accessBoost * 0.05

/-- retrieve: score every record, stable-sort descending, take the first
limit records, incrementing accessCount on each returned record (also
inside the store). -/
noncomputable def retrieve (query : String) (limit : Nat) (now : Nat)
    (queryEmbedding : List ℚ) (s : MemState) : List Memory × MemState :=
  if s.config.enabled = false ∨ s.memories.length = 0 then ([], s)
  else
    let sorted := List.insertionSort (fun a b : Memory × ℝ => a.2 ≥ b.2)
      ((s.memories.map Prod.snd).map fun m => (m, retrieveScore now queryEmbedding query m))
    let picked := (sorted.take limit).map Prod.fst
    (picked.map fun m => { m with accessCount := m.accessCount + 1 },
      { s with
          memories :=
            (picked.foldl
              (fun acc m => mapSet m.id { m with accessCount := m.accessCount + 1 } acc)
              s.memories) })

/-! ## Claim C3: store respects the capacity bound -/

theorem keys_mapSet_of_not_mem {κ α : Type} [DecidableEq κ] (k : κ) (v : α)
    (m : List (κ × α)) (h : k ∉ m.map Prod.fst) :
    (mapSet k v m).map Prod.fst = m.map Prod.fst ++ [k] := by
  induction m with
  | nil => simp [mapSet]
  | cons p rest ih =>
    simp only [List.map_cons, List.mem_cons, not_or] at h
    have hpk : ¬ p.1 = k := fun hh => h.1 hh.symm
    simp only [mapSet, hpk, if_neg, not_false_iff, List.map_cons, List.cons_append,
      List.cons.injEq, true_and]
    exact ih h.2

theorem length_mapSet_of_not_mem {κ α : Type} [DecidableEq κ] (k : κ) (v : α)
    (m : List (κ × α)) (h : k ∉ m.map Prod.fst) :
    (mapSet k v m).length = m.length + 1 := by
  have := congrArg List.length (keys_mapSet_of_not_mem k v m h)
  simpa using this

theorem length_mapDelete_le {κ α : Type} [DecidableEq κ] (k : κ) (m : List (κ × α)) :
    (mapDelete k m).length ≤ m.length := by
  induction m with
  | nil => simp [mapDelete]
  | cons p rest ih =>
    by_cases hpk : p.1 = k
    · simp only [mapDelete, hpk, if_pos, List.length_cons]
      omega
    · simp only [mapDelete, hpk, if_neg, not_false_iff, List.length_cons]
      omega

theorem length_mapDelete_lt {κ α : Type} [DecidableEq κ] (k : κ) (m : List (κ × α))
    (h : k ∈ m.map Prod.fst) : (mapDelete k m).length < m.length := by
  induction m with
  | nil => simp at h
  | cons p rest ih =>
    by_cases hpk : p.1 = k
    · simp only [mapDelete, hpk, if_pos, List.length_cons]
      have := length_mapDelete_le k rest
      omega
    · simp only [List.map_cons, List.mem_cons] at h
      rcases h with h | h
      · exact absurd h.symm hpk
      · simp only [mapDelete, hpk, if_neg, not_false_iff, List.length_cons]
        have := ih h
        omega

/-- Internal consistency of the memory map: keys are the record ids,
keys are unique, and all ids are below the fresh counter. -/
def MemWF (s : MemState) : Prop :=
  (∀ p ∈ s.memories, p.2.id = p.1) ∧
  (s.memories.map Prod.fst).Nodup ∧
  (∀ k ∈ s.memories.map Prod.fst, k < s.nextId)

theorem foldl_memDeleteId_pairs_sub (items : List (Memory × ℚ)) (s : MemState)
    {p : Nat × Memory}
    (h : p ∈ (items.foldl (fun acc item => memDeleteId item.1.id acc) s).memories) :
    p ∈ s.memories := by
  induction items generalizing s with
  | nil => exact h
  | cons a rest ih => exact mem_of_mem_mapDelete (ih (memDeleteId a.1.id s) h)

theorem foldl_memDeleteId_nodup (items : List (Memory × ℚ)) (s : MemState)
    (h : (s.memories.map Prod.fst).Nodup) :
    (((items.foldl (fun acc item => memDeleteId item.1.id acc) s).memories).map
      Prod.fst).Nodup := by
  induction items generalizing s with
  | nil => exact h
  | cons a rest ih => exact ih (memDeleteId a.1.id s) (nodup_keys_mapDelete _ _ h)

theorem foldl_memDeleteId_len_le (items : List (Memory × ℚ)) (s : MemState) :
    (items.foldl (fun acc item => memDeleteId item.1.id acc) s).memories.length ≤
      s.memories.length := by
  induction items generalizing s with
  | nil => exact le_refl _
  | cons a rest ih =>
    exact le_trans (ih (memDeleteId a.1.id s)) (length_mapDelete_le _ _)

theorem foldl_memDeleteId_frame (items : List (Memory × ℚ)) (s : MemState) :
    (items.foldl (fun acc item => memDeleteId item.1.id acc) s).config = s.config ∧
    (items.foldl (fun acc item => memDeleteId item.1.id acc) s).nextId = s.nextId := by
  induction items generalizing s with
  | nil => exact ⟨rfl, rfl⟩
  | cons a rest ih => exact ih (memDeleteId a.1.id s)

theorem evict_wf (now : Nat) (s : MemState) (h : MemWF s) :
    MemWF (evictLeastRelevant now s) := by
  obtain ⟨hpair, hnodup, hbound⟩ := h
  unfold evictLeastRelevant
  refine ⟨?_, ?_, ?_⟩
  · intro p hp
    exact hpair p (foldl_memDeleteId_pairs_sub _ s hp)
  · exact foldl_memDeleteId_nodup _ s hnodup
  · intro k hk
    rcases List.mem_map.mp hk with ⟨q, hq, hq1⟩
    have hq2 : q ∈ s.memories := foldl_memDeleteId_pairs_sub _ s hq
    have : k ∈ s.memories.map Prod.fst := List.mem_map.mpr ⟨q, hq2, hq1⟩
    have := hbound k this
    rw [(foldl_memDeleteId_frame _ s).2]
    exact this

theorem length_evictScored (now : Nat) (s : MemState) :
    (evictScored now s).length = s.memories.length := by
  unfold evictScored
  rw [(List.perm_insertionSort _ _).length_eq]
  simp

theorem evict_len_lt (now : Nat) (s : MemState) (hwf : MemWF s)
    (h : 1 ≤ s.memories.length) :
    (evictLeastRelevant now s).memories.length < s.memories.length := by
  have hcount : 1 ≤ evictCount s := by
    unfold evictCount
    omega
  have hlen : 1 ≤ ((evictScored now s).take (evictCount s)).length := by
    rw [List.length_take, length_evictScored]
    omega
  cases htake : (evictScored now s).take (evictCount s) with
  | nil => rw [htake] at hlen; simp at hlen
  | cons a rest =>
    have hamem : a ∈ evictScored now s :=
      List.mem_of_mem_take (htake ▸ List.mem_cons_self a rest)
    have hamem2 : a ∈ (s.memories.map Prod.snd).map fun m => (m, evictionScore now m) := by
      unfold evictScored at hamem
      exact (List.perm_insertionSort _ _).mem_iff.mp hamem
    rcases List.mem_map.mp hamem2 with ⟨m, hm, hmeq⟩
    rcases List.mem_map.mp hm with ⟨p, hp, hpeq⟩
    have hkey : a.1.id ∈ s.memories.map Prod.fst := by
      have h1 : a.1 = m := by rw [← hmeq]
      have h2 : m.id = p.1 := by rw [← hpeq]; exact hwf.1 p hp
      rw [h1, h2]
      exact List.mem_map.mpr ⟨p, hp, rfl⟩
    unfold evictLeastRelevant
    rw [htake]
    calc (rest.foldl (fun acc item => memDeleteId item.1.id acc)
            (memDeleteId a.1.id s)).memories.length
        ≤ (memDeleteId a.1.id s).memories.length := foldl_memDeleteId_len_le rest _
      _ < s.memories.length := length_mapDelete_lt _ _ hkey

theorem store_frame (input : MemoryInput) (now : Nat) (embedFn : String → List ℚ)
    (s : MemState) : (store input now embedFn s).config = s.config := by
  unfold store
  by_cases henb : s.config.enabled = true <;>
    by_cases hcap : s.config.maxMemories ≤ s.memories.length <;>
      simp [henb, hcap, (foldl_memDeleteId_frame _ _).1, evictLeastRelevant]

theorem store_insert_bound (full : Memory) (now : Nat) (s1 : MemState)
    (hwf : MemWF s1) (hid : full.id = s1.nextId)
    (hlen : s1.memories.length ≤ s1.config.maxMemories)
    (hmax : 1 ≤ s1.config.maxMemories) :
    MemWF { (if s1.config.maxMemories ≤ s1.memories.length then evictLeastRelevant now s1
          else s1) with
        memories :=
          (mapSet full.id full
            (if s1.config.maxMemories ≤ s1.memories.length then evictLeastRelevant now s1
              else s1).memories)
        nextId :=
          (if s1.config.maxMemories ≤ s1.memories.length then evictLeastRelevant now s1
            else s1).nextId + 1 } ∧
    (mapSet full.id full
      (if s1.config.maxMemories ≤ s1.memories.length then evictLeastRelevant now s1
        else s1).memories).length ≤ s1.config.maxMemories := by
  obtain ⟨hpair, hnodup, hbound⟩ := hwf
  by_cases hcap : s1.config.maxMemories ≤ s1.memories.length
  · rw [if_pos hcap]
    have hwf2 := evict_wf now s1 ⟨hpair, hnodup, hbound⟩
    obtain ⟨hpair2, hnodup2, hbound2⟩ := hwf2
    have hnext : (evictLeastRelevant now s1).nextId = s1.nextId := by
      unfold evictLeastRelevant
      exact (foldl_memDeleteId_frame _ _).2
    have hfresh : full.id ∉ (evictLeastRelevant now s1).memories.map Prod.fst := by
      intro hmem
      have := hbound2 full.id hmem
      rw [hnext, hid] at this
      omega
    have hlt : (evictLeastRelevant now s1).memories.length < s1.memories.length :=
      evict_len_lt now s1 ⟨hpair, hnodup, hbound⟩ (le_trans hmax hcap)
    refine ⟨⟨?_, ?_, ?_⟩, ?_⟩
    · intro p hp
      rcases mem_of_mem_mapSet hp with hp | hp
      · exact hpair2 p hp
      · rw [hp]
    · exact nodup_keys_mapSet _ _ _ hnodup2
    · intro k hk
      show k < (evictLeastRelevant now s1).nextId + 1
      rcases List.mem_map.mp hk with ⟨q, hq, hq1⟩
      rcases mem_of_mem_mapSet hq with hq' | hq'
      · have := hbound2 k (List.mem_map.mpr ⟨q, hq', hq1⟩)
        omega
      · have : k = full.id := by rw [hq'] at hq1; rw [← hq1]
        rw [this, hid, hnext]
        omega
    · rw [length_mapSet_of_not_mem _ _ _ hfresh]
      omega
  · rw [if_neg hcap]
    have hfresh : full.id ∉ s1.memories.map Prod.fst := by
      intro hmem
      have := hbound full.id hmem
      rw [hid] at this
      omega
    refine ⟨⟨?_, ?_, ?_⟩, ?_⟩
    · intro p hp
      rcases mem_of_mem_mapSet hp with hp | hp
      · exact hpair p hp
      · rw [hp]
    · exact nodup_keys_mapSet _ _ _ hnodup
    · intro k hk
      show k < s1.nextId + 1
      rcases List.mem_map.mp hk with ⟨q, hq, hq1⟩
      rcases mem_of_mem_mapSet hq with hq' | hq'
      · have := hbound k (List.mem_map.mpr ⟨q, hq', hq1⟩)
        omega
      · have : k = full.id := by rw [hq'] at hq1; rw [← hq1]
        rw [this, hid]
        omega
    · rw [length_mapSet_of_not_mem _ _ _ hfresh]
      omega

theorem store_bound (input : MemoryInput) (now : Nat) (embedFn : String → List ℚ)
    (s : MemState) (hwf : MemWF s) (hlen : s.memories.length ≤ s.config.maxMemories)
    (hmax : 1 ≤ s.config.maxMemories) :
    MemWF (store input now embedFn s) ∧
    (store input now embedFn s).memories.length ≤ s.config.maxMemories := by
  unfold store
  by_cases henb : s.config.enabled = true
  · simp only [henb, if_pos]
    exact store_insert_bound
      { id := s.nextId, content := input.content, embedding := some (embedFn input.content),
        relevanceScore := input.relevanceScore, timestamp := now, accessCount := 0 }
      now { s with embeddings := mapSet s.nextId (embedFn input.content) s.embeddings }
      hwf rfl hlen hmax
  · simp only [henb, if_neg, Bool.not_eq_true, not_false_iff]
    exact store_insert_bound
      { id := s.nextId, content := input.content, embedding := input.embedding,
        relevanceScore := input.relevanceScore, timestamp := now, accessCount := 0 }
      now s hwf rfl hlen hmax

theorem storeRun_bound (embedFn : String → List ℚ) (inputs : List (MemoryInput × Nat))
    (s : MemState) (hwf : MemWF s) (hlen : s.memories.length ≤ s.config.maxMemories)
    (hmax : 1 ≤ s.config.maxMemories) :
    (storeRun embedFn s inputs).memories.length ≤ s.config.maxMemories := by
  induction inputs generalizing s with
  | nil => exact hlen
  | cons p rest ih =>
    obtain ⟨input, now⟩ := p
    have hb := store_bound input now embedFn s hwf hlen hmax
    have hconf := store_frame input now embedFn s
    have h2 := ih (store input now embedFn s) hb.1
      (by rw [hconf]; exact hb.2) (by rw [hconf]; exact hmax)
    rwa [hconf] at h2

theorem evictScored_sorted (now : Nat) (s : MemState) :
    List.Sorted (fun a b : Memory × ℚ => a.2 ≤ b.2) (evictScored now s) := by
  unfold evictScored
  haveI : IsTotal (Memory × ℚ) (fun a b => a.2 ≤ b.2) := ⟨fun a b => le_total a.2 b.2⟩
  haveI : IsTrans (Memory × ℚ) (fun a b => a.2 ≤ b.2) :=
    ⟨fun a b c hab hbc => le_trans hab hbc⟩
  exact List.sorted_insertionSort _ _

/-- Claim C3 (amended): provided maxMemories is at least 1, after every
call in any sequence of store calls starting from the empty store the
record count is at most maxMemories; and every record selected for
eviction (the first ceil(10%) of the records sorted ascending by
eviction score) scores no higher than any record kept.  With
maxMemories = 0 the bound fails (see the counterexample). -/
theorem memory_store_capacity (config : MemoryConfig) (embedFn : String → List ℚ)
    (inputs : List (MemoryInput × Nat)) (hmax : 1 ≤ config.maxMemories) :
    (storeRun embedFn (initMemState config) inputs).memories.length ≤ config.maxMemories ∧
    (∀ now s, ∀ a ∈ (evictScored now s).take (evictCount s),
        ∀ b ∈ (evictScored now s).drop (evictCount s), a.2 ≤ b.2) := by
  constructor
  · exact storeRun_bound embedFn inputs (initMemState config)
      (by refine ⟨?_, ?_, ?_⟩ <;> simp [initMemState]) (by simp [initMemState]) hmax
  · intro now s a ha b hb
    exact (evictScored_sorted now s).rel_of_mem_take_of_mem_drop ha hb

/-- A configuration whose maximum record count is zero. -/
def zeroCapConfig : MemoryConfig := { enabled := false, maxMemories := 0 }

/-- Claim C3 counterexample: with maxMemories = 0, one store call leaves
one record in the store although the configured maximum is 0 — the
at-capacity eviction removes ceil(10%) of 0 records, that is none, and
then inserts. -/
theorem memory_store_zero_capacity_counterexample :
    (storeRun (fun _ => []) (initMemState zeroCapConfig)
        [({ content := "a", embedding := none, relevanceScore := 0 }, 0)]).memories.length
      = 1 ∧
    ¬ ((storeRun (fun _ => []) (initMemState zeroCapConfig)
        [({ content := "a", embedding := none, relevanceScore := 0 }, 0)]).memories.length ≤
          zeroCapConfig.maxMemories) := by decide

/-- A configuration with capacity one and embeddings disabled. -/
def c3Config : MemoryConfig := { enabled := false, maxMemories := 1 }

/-- Two store calls for the capacity witness. -/
def c3Inputs : List (MemoryInput × Nat) :=
  [({ content := "a", embedding := none, relevanceScore := 0 }, 0),
   ({ content := "b", embedding := none, relevanceScore := 0 }, 5)]

/-- Witness for the amended C3 theorem at a concrete configuration. -/
theorem memory_store_capacity_witness :
    1 ≤ c3Config.maxMemories ∧
    ((storeRun (fun _ => []) (initMemState c3Config) c3Inputs).memories.length ≤
        c3Config.maxMemories ∧
      (∀ now s, ∀ a ∈ (evictScored now s).take (evictCount s),
          ∀ b ∈ (evictScored now s).drop (evictCount s), a.2 ≤ b.2)) :=
  ⟨by decide, memory_store_capacity c3Config (fun _ => []) c3Inputs (by decide)⟩

/-! ## Claim C10: import bypasses the capacity bound -/

theorem importStep_fields (s : MemState) (m : Memory) :
    (importStep s m).memories = mapSet m.id m s.memories ∧
    (importStep s m).config = s.config := by
  cases hm : m.embedding <;> simp [importStep, hm]

theorem importMemories_lookup_not_mem (ms : List Memory) (s : MemState) (k : Nat)
    (h : k ∉ ms.map Memory.id) :
    mapGet k (importMemories ms s).memories = mapGet k s.memories := by
  induction ms generalizing s with
  | nil => rfl
  | cons m rest ih =>
    simp only [List.map_cons, List.mem_cons, not_or] at h
    have h1 : ¬ m.id = k := fun hh => h.1 hh.symm
    rw [show importMemories (m :: rest) s = importMemories rest (importStep s m) from rfl]
    rw [ih (importStep s m) h.2, (importStep_fields s m).1, mapGet_mapSet, if_neg h1]

/-- Claim C10 (confirmed): import inserts every given record into the
store unconditionally, with no eviction and no capacity check: for
fresh, pairwise-distinct ids the record count grows by exactly the
number of imported records, every imported record is present afterwards,
and the configuration (hence maxMemories) is untouched — so the
configured bound can be exceeded. -/
theorem import_unconditional (ms : List Memory) (s : MemState)
    (h : (s.memories.map Prod.fst ++ ms.map Memory.id).Nodup) :
    (importMemories ms s).memories.length = s.memories.length + ms.length ∧
    (∀ m ∈ ms, mapGet m.id (importMemories ms s).memories = some m) ∧
    (importMemories ms s).config = s.config := by
  induction ms generalizing s with
  | nil => exact ⟨by simp [importMemories], by simp, rfl⟩
  | cons m rest ih =>
    simp only [List.map_cons] at h
    rw [List.nodup_append] at h
    have hmid_not_keys : m.id ∉ s.memories.map Prod.fst :=
      fun hmem => h.2.2 hmem (List.mem_cons_self _ _)
    have hmid_not_rest : m.id ∉ rest.map Memory.id := (List.nodup_cons.mp h.2.1).1
    have hkeys : (importStep s m).memories.map Prod.fst =
        s.memories.map Prod.fst ++ [m.id] := by
      rw [(importStep_fields s m).1]
      exact keys_mapSet_of_not_mem _ _ _ hmid_not_keys
    have hrest_nodup :
        ((importStep s m).memories.map Prod.fst ++ rest.map Memory.id).Nodup := by
      rw [hkeys, List.append_assoc, List.singleton_append]
      rw [List.nodup_append]
      exact ⟨h.1, h.2.1, h.2.2⟩
    have ih2 := ih (importStep s m) hrest_nodup
    refine ⟨?_, ?_, ?_⟩
    · rw [show importMemories (m :: rest) s = importMemories rest (importStep s m) from rfl]
      rw [ih2.1]
      have hlen : (importStep s m).memories.length = s.memories.length + 1 := by
        rw [(importStep_fields s m).1]
        exact length_mapSet_of_not_mem _ _ _ hmid_not_keys
      rw [hlen]
      simp only [List.length_cons]
      omega
    · intro m2 hm2
      rcases List.mem_cons.mp hm2 with rfl | hm2
      · rw [show importMemories (m2 :: rest) s = importMemories rest (importStep s m2) from rfl]
        rw [importMemories_lookup_not_mem rest _ m2.id hmid_not_rest]
        rw [(importStep_fields s m2).1, mapGet_mapSet]
        simp
      · exact ih2.2.1 m2 hm2
    · rw [show importMemories (m :: rest) s = importMemories rest (importStep s m) from rfl]
      rw [ih2.2.2, (importStep_fields s m).2]

/-- An imported record with id 0. -/
def c10Mem1 : Memory :=
  { id := 0, content := "a", embedding := none, relevanceScore := 0,
    timestamp := 0, accessCount := 0 }

/-- An imported record with id 1. -/
def c10Mem2 : Memory :=
  { id := 1, content := "b", embedding := none, relevanceScore := 0,
    timestamp := 0, accessCount := 0 }

/-- Witness for C10: importing two records into an empty store with
maxMemories = 1 yields two records — more than the configured maximum. -/
theorem import_unconditional_witness :
    ((initMemState c3Config).memories.map Prod.fst ++
        ([c10Mem1, c10Mem2].map Memory.id)).Nodup ∧
    ((importMemories [c10Mem1, c10Mem2] (initMemState c3Config)).memories.length =
        (initMemState c3Config).memories.length + [c10Mem1, c10Mem2].length ∧
      (∀ m ∈ [c10Mem1, c10Mem2],
        mapGet m.id (importMemories [c10Mem1, c10Mem2] (initMemState c3Config)).memories
          = some m) ∧
      (importMemories [c10Mem1, c10Mem2] (initMemState c3Config)).config =
        (initMemState c3Config).config) ∧
    (importMemories [c10Mem1, c10Mem2] (initMemState c3Config)).config.maxMemories <
      (importMemories [c10Mem1, c10Mem2] (initMemState c3Config)).memories.length :=
  ⟨by decide, import_unconditional [c10Mem1, c10Mem2] (initMemState c3Config) (by decide),
    by decide⟩

/-! ## Claim C7: retrieval ranking -/

/-- The retrieval score as claim C7 words it:
similarity + 0.1 · recencyBoost + 0.05 · log(accessCount + 1).
The code instead multiplies 0.05 by log(accessCount + 1) / 10. -/
noncomputable def claimRetrieveScore (now : Nat) (queryEmbedding : List ℚ)
    (query : String) (m : Memory) : ℝ :=
  (match m.embedding with
    | some e => cosineSimilarity queryEmbedding e
    | none => ((keywordSimilarity query m.content : ℚ) : ℝ)) +
  (1 / (1 + ((now : ℝ) - (m.timestamp : ℝ)) / (1000 * 60 * 60 * 24))) * 0.1 +
  Real.log ((m.accessCount : ℝ) + 1) * 0.05

/-- Claim C7 (amended): with the store enabled, retrieve returns the
records of some descending-sorted permutation of the scored record list
— scored by the code's formula, whose access-count term is
0.05 · (log(accessCount+1)/10) — truncated to limit, each returned
record's accessCount incremented; at most limit records are returned. -/
theorem retrieve_spec (query : String) (limit now : Nat) (qe : List ℚ) (s : MemState)
    (henb : s.config.enabled = true) :
    ∃ sorted : List (Memory × ℝ),
      sorted.Perm ((s.memories.map Prod.snd).map
          fun m => (m, retrieveScore now qe query m)) ∧
      sorted.Sorted (fun a b : Memory × ℝ => a.2 ≥ b.2) ∧
      (retrieve query limit now qe s).1 =
        ((sorted.take limit).map Prod.fst).map
          (fun m => { m with accessCount := m.accessCount + 1 }) ∧
      (retrieve query limit now qe s).1.length ≤ limit := by
  haveI : IsTotal (Memory × ℝ) (fun a b : Memory × ℝ => a.2 ≥ b.2) :=
    ⟨fun a b => le_total b.2 a.2⟩
  haveI : IsTrans (Memory × ℝ) (fun a b : Memory × ℝ => a.2 ≥ b.2) :=
    ⟨fun a b c hab hbc => le_trans hbc hab⟩
  by_cases hempty : s.memories.length = 0
  · have hnil : s.memories = [] := List.length_eq_zero.mp hempty
    refine ⟨[], by simp [hnil], by simp, ?_, ?_⟩
    · unfold retrieve
      rw [if_pos (Or.inr hempty)]
      simp
    · unfold retrieve
      rw [if_pos (Or.inr hempty)]
      simp
  · have hcond : ¬ (s.config.enabled = false ∨ s.memories.length = 0) := by
      rw [henb]
      simp [hempty]
    refine ⟨List.insertionSort (fun a b : Memory × ℝ => a.2 ≥ b.2)
        ((s.memories.map Prod.snd).map fun m => (m, retrieveScore now qe query m)),
      List.perm_insertionSort _ _, List.sorted_insertionSort _ _, ?_, ?_⟩
    · unfold retrieve
      rw [if_neg hcond]
    · unfold retrieve
      rw [if_neg hcond]
      simp only [List.length_map, List.length_take]
      exact min_le_left _ _

/-- Witness state for the retrieve theorems: two records, no embeddings,
in an enabled store. -/
def c7MemA : Memory :=
  { id := 0, content := "q", embedding := none, relevanceScore := 0,
    timestamp := 1000, accessCount := 7 }

/-- The record matching one word of the query. -/
def c7MemB : Memory :=
  { id := 1, content := "w0", embedding := none, relevanceScore := 0,
    timestamp := 1000, accessCount := 0 }

/-- Enabled store holding c7MemA and c7MemB. -/
def c7State : MemState :=
  { config := { enabled := true, maxMemories := 100 },
    memories := [(0, c7MemA), (1, c7MemB)], embeddings := [], nextId := 2 }

/-- A ten-word query of which c7MemB's content matches exactly one. -/
def c7Query : String := "w0 w1 w2 w3 w4 w5 w6 w7 w8 w9"

/-- Witness for the amended C7 theorem at the concrete store. -/
theorem retrieve_spec_witness :
    c7State.config.enabled = true ∧
    (∃ sorted : List (Memory × ℝ),
      sorted.Perm ((c7State.memories.map Prod.snd).map
          fun m => (m, retrieveScore 1000 [] c7Query m)) ∧
      sorted.Sorted (fun a b : Memory × ℝ => a.2 ≥ b.2) ∧
      (retrieve c7Query 1 1000 [] c7State).1 =
        ((sorted.take 1).map Prod.fst).map
          (fun m => { m with accessCount := m.accessCount + 1 }) ∧
      (retrieve c7Query 1 1000 [] c7State).1.length ≤ 1) :=
  ⟨rfl, retrieve_spec c7Query 1 1000 [] c7State rfl⟩

theorem c7_keyword_A : ((keywordSimilarity c7Query "q" : ℚ) : ℝ) = 0 := by
  have h : keywordSimilarity c7Query "q" = 0 := by decide
  rw [h]
  norm_num

theorem c7_keyword_B : ((keywordSimilarity c7Query "w0" : ℚ) : ℝ) = 1 / 10 := by
  have h : keywordSimilarity c7Query "w0" = 1 / 10 := by decide
  rw [h]
  push_cast
  norm_num

theorem c7_log_eight : Real.log 8 = 3 * Real.log 2 := by
  rw [show (8 : ℝ) = 2 ^ 3 by norm_num, Real.log_pow]
  push_cast
  ring

theorem c7_code_order :
    retrieveScore 1000 [] c7Query c7MemA < retrieveScore 1000 [] c7Query c7MemB := by
  unfold retrieveScore
  simp only [c7MemA, c7MemB]
  norm_num [c7_keyword_A, c7_keyword_B, Real.log_one]
  have h8 := c7_log_eight
  have h2 := Real.log_two_lt_d9
  nlinarith

theorem c7_claim_order :
    claimRetrieveScore 1000 [] c7Query c7MemA > claimRetrieveScore 1000 [] c7Query c7MemB := by
  unfold claimRetrieveScore
  simp only [c7MemA, c7MemB]
  norm_num [c7_keyword_A, c7_keyword_B, Real.log_one]
  have h8 := c7_log_eight
  have h2 := Real.log_two_gt_d9
  nlinarith


theorem c7_retrieve_result :
    (retrieve c7Query 1 1000 [] c7State).1 = [{ c7MemB with accessCount := 1 }] := by
  have hnot : ¬ (retrieveScore 1000 [] c7Query c7MemA ≥
      retrieveScore 1000 [] c7Query c7MemB) := not_le.mpr c7_code_order
  unfold retrieve
  rw [if_neg (by simp [c7State])]
  simp only [c7State, List.map_cons, List.map_nil, List.insertionSort, List.orderedInsert]
  rw [if_neg hnot]
  simp [c7MemB]

/-- Claim C7 counterexample: in the concrete enabled store, record
c7MemA scores strictly higher than c7MemB under the claim's formula
(whose access term is 0.05·log(accessCount+1)), yet retrieve with
limit 1 returns c7MemB — the code scales the log term by a further
1/10, so retrieve does not return the top records by the claimed
score. -/
theorem retrieve_log_coefficient_counterexample :
    claimRetrieveScore 1000 [] c7Query c7MemA >
      claimRetrieveScore 1000 [] c7Query c7MemB ∧
    (retrieve c7Query 1 1000 [] c7State).1 = [{ c7MemB with accessCount := 1 }] :=
  ⟨c7_claim_order, c7_retrieve_result⟩


/-! ## AgentNetworkCoordinator.processMessageQueue (src/unnamed/part_005)

Only the fields that the queue-processing path reads are modelled.  The
receiveMessage handlers are external collaborators; a handler is a
function giving the messages it enqueues (via queueMessage) while
handling a delivery. -/

inductive Urgency
  | low
  | medium
  | high
  | critical
deriving DecidableEq

/-- The urgencyOrder table of processMessageQueue. -/
def urgencyOrder : Urgency → Nat
  | .critical => 4
  | .high => 3
  | .medium => 2
  | .low => 1

structure NetMessage where
  id : String
  fromAgent : String
  toAgent : String
  urgency : Urgency
deriving DecidableEq

structure NetState where
  agents : List String
  messageQueue : List NetMessage
  isProcessing : Bool
deriving DecidableEq

/-- The deliveries one message produces: a broadcast goes to every
registered agent except the sender (with toAgent rewritten); a direct
message goes to its target when registered, and is otherwise dropped. -/
def deliveriesFor (agents : List String) (m : NetMessage) : List (String × NetMessage) :=
  if m.toAgent = "all" then
    (agents.filter fun a => a ≠ m.fromAgent).map fun a => (a, { m with toAgent := a })
  else if m.toAgent ∈ agents then [(m.toAgent, m)] else []

/-- The messages enqueued (in order) by the handlers while the given
dispatch list is delivered. -/
def dispatchEnqueues (handler : String → NetMessage → List NetMessage)
    (agents : List String) (msgs : List NetMessage) : List NetMessage :=
  msgs.foldl
    (fun acc m => (deliveriesFor agents m).foldl (fun acc2 d => acc2 ++ handler d.1 d.2) acc)
    []

/-- processMessageQueue: a no-op under the single-flight flag or on an
empty queue; otherwise stable-sort the queued messages descending by
urgency, clear the queue, deliver them (returned as the dispatch list),
collect the handler enqueues as the next queue, and drop the flag. -/
def processMessageQueue (handler : String → NetMessage → List NetMessage)
    (s : NetState) : List NetMessage × NetState :=
  if s.isProcessing = true ∨ s.messageQueue.length = 0 then ([], s)
  else
    let sortedMessages := List.insertionSort
      (fun a b : NetMessage => urgencyOrder b.urgency ≤ urgencyOrder a.urgency)
      s.messageQueue
    (sortedMessages,
      { s with messageQueue := dispatchEnqueues handler s.agents sortedMessages,
               isProcessing := false })

/-- Claim C9 (confirmed): a flush while one is in progress is a no-op; a
completed flush dispatches exactly the messages queued at its start
(a permutation of the start queue) in non-increasing urgency order; and
the queue afterwards holds exactly the messages enqueued by handlers
during dispatch, deferred to the next cycle. -/
theorem flush_spec (handler : String → NetMessage → List NetMessage) (s : NetState) :
    (s.isProcessing = true → processMessageQueue handler s = ([], s)) ∧
    (s.isProcessing = false →
      (processMessageQueue handler s).1.Perm s.messageQueue ∧
      (processMessageQueue handler s).1.Sorted
        (fun a b : NetMessage => urgencyOrder b.urgency ≤ urgencyOrder a.urgency) ∧
      (processMessageQueue handler s).2.messageQueue =
        dispatchEnqueues handler s.agents (processMessageQueue handler s).1 ∧
      (processMessageQueue handler s).2.isProcessing = false) := by
  haveI : IsTotal NetMessage
      (fun a b : NetMessage => urgencyOrder b.urgency ≤ urgencyOrder a.urgency) :=
    ⟨fun a b => le_total (urgencyOrder b.urgency) (urgencyOrder a.urgency)⟩
  haveI : IsTrans NetMessage
      (fun a b : NetMessage => urgencyOrder b.urgency ≤ urgencyOrder a.urgency) :=
    ⟨fun a b c hab hbc => le_trans hbc hab⟩
  constructor
  · intro hp
    unfold processMessageQueue
    rw [if_pos (Or.inl hp)]
  · intro hp
    by_cases hq : s.messageQueue.length = 0
    · have hnil : s.messageQueue = [] := List.length_eq_zero.mp hq
      unfold processMessageQueue
      rw [if_pos (Or.inr hq)]
      refine ⟨by simp [hnil], by simp, ?_, hp⟩
      simp [hnil, dispatchEnqueues]
    · have hcond : ¬ (s.isProcessing = true ∨ s.messageQueue.length = 0) := by
        rw [hp]
        simp [hq]
      unfold processMessageQueue
      rw [if_neg hcond]
      exact ⟨List.perm_insertionSort _ _, List.sorted_insertionSort _ _, rfl, rfl⟩

/-- A low-urgency direct message. -/
def c9MsgLow : NetMessage := { id := "m1", fromAgent := "a", toAgent := "b", urgency := .low }

/-- A critical direct message. -/
def c9MsgCrit : NetMessage := { id := "m2", fromAgent := "b", toAgent := "a", urgency := .critical }

/-- An idle network state with two queued messages. -/
def c9State : NetState :=
  { agents := ["a", "b"], messageQueue := [c9MsgLow, c9MsgCrit], isProcessing := false }

/-- The same network state while a flush is in progress. -/
def c9StateBusy : NetState := { c9State with isProcessing := true }

/-- Witness for C9 at concrete states: the re-entrant call is a no-op
and the idle-state flush satisfies the dispatch contract. -/
theorem flush_spec_witness :
    processMessageQueue (fun _ _ => []) c9StateBusy = ([], c9StateBusy) ∧
    ((processMessageQueue (fun _ _ => []) c9State).1.Perm c9State.messageQueue ∧
      (processMessageQueue (fun _ _ => []) c9State).1.Sorted
        (fun a b : NetMessage => urgencyOrder b.urgency ≤ urgencyOrder a.urgency) ∧
      (processMessageQueue (fun _ _ => []) c9State).2.messageQueue =
        dispatchEnqueues (fun _ _ => []) c9State.agents
          (processMessageQueue (fun _ _ => []) c9State).1 ∧
      (processMessageQueue (fun _ _ => []) c9State).2.isProcessing = false) :=
  ⟨(flush_spec (fun _ _ => []) c9StateBusy).1 rfl,
    (flush_spec (fun _ _ => []) c9State).2 rfl⟩


/-! ## InferenceCoordinator (src/app/lib/stores/settings.spec.ts)

Engines are identified by id; the engine map is subsumed by the ordered
engineStatus map (getEngineId is the identity on ids).  Job ids come
from a fresh counter.  The asynchronous executeJob is split into its two
synchronous halves: the dispatch half inside submit (mark the engine
processing) and completeJob (metrics, engine counters, response caching,
mark idle).  Responses carry the fields the coordinator reads. -/

inductive LoadBalancing
  | roundRobin
  | leastLoaded
  | priorityPolicy
deriving DecidableEq

structure InfConfig where
  maxEngines : Nat
  loadBalancing : LoadBalancing
  enableCaching : Bool
  cacheSize : Nat
deriving DecidableEq

structure InfRequest where
  prompt : String
  maxTokens : Nat
  stopSequences : List String
  temperature : ℚ
  topK : Nat
  topP : ℚ
deriving DecidableEq

/-- The cache key: the deterministic serialization of exactly
prompt, maxTokens, temperature, topK and topP. -/
structure CacheKey where
  prompt : String
  maxTokens : Nat
  temperature : ℚ
  topK : Nat
  topP : ℚ
deriving DecidableEq

def getCacheKey (r : InfRequest) : CacheKey :=
  { prompt := r.prompt, maxTokens := r.maxTokens, temperature := r.temperature,
    topK := r.topK, topP := r.topP }

structure InfResponse where
  text : String
  tokens : Nat
  tokensPerSecond : ℚ
deriving DecidableEq

inductive EngineState
  | idle
  | loading
  | processing
  | error
deriving DecidableEq

structure EngineStatus where
  status : EngineState
  currentJob : Option Nat
  processedJobs : Nat
  averageLatency : ℚ
  lastActive : Nat
deriving DecidableEq

structure InfJob where
  id : Nat
  request : InfRequest
  priority : Int
  createdAt : Nat
deriving DecidableEq

structure InfMetrics where
  totalJobs : Nat
  completedJobs : Nat
  failedJobs : Nat
  cacheHits : Nat
  cacheMisses : Nat
  averageLatency : ℚ
  tokensPerSecond : ℚ
deriving DecidableEq

structure CachedResponse where
  response : InfResponse
  timestamp : Nat
deriving DecidableEq

structure InfState where
  config : InfConfig
  engineStatus : List (String × EngineStatus)
  jobQueue : List InfJob
  responseCache : List (CacheKey × CachedResponse)
  metrics : InfMetrics
  nextJobId : Nat
deriving DecidableEq

/-- findRoundRobin: the first idle engine in registration order. -/
def firstIdle : List (String × EngineStatus) → Option String
  | [] => none
  | p :: rest => if p.2.status = .idle then some p.1 else firstIdle rest

/-- findLeastLoaded: the idle engine with the fewest processed jobs
(strict improvement, so the earliest of equals wins). -/
def findLeastLoaded (es : List (String × EngineStatus)) : Option String :=
  (es.foldl
    (fun best p =>
      if p.2.status = .idle then
        match best with
        | none => some (p.1, p.2.processedJobs)
        | some q => if p.2.processedJobs < q.2 then some (p.1, p.2.processedJobs) else best
      else best)
    (none : Option (String × Nat))).map Prod.fst

/-- findByPriority: the idle engine with the lowest average latency. -/
def findByPriority (es : List (String × EngineStatus)) : Option String :=
  (es.foldl
    (fun best p =>
      if p.2.status = .idle then
        match best with
        | none => some (p.1, p.2.averageLatency)
        | some q => if p.2.averageLatency < q.2 then some (p.1, p.2.averageLatency) else best
      else best)
    (none : Option (String × ℚ))).map Prod.fst

/-- findAvailableEngine, dispatching on the load-balancing policy. -/
def findAvailableEngine (lb : LoadBalancing) (es : List (String × EngineStatus)) :
    Option String :=
  match lb with
  | .roundRobin => firstIdle es
  | .leastLoaded => findLeastLoaded es
  | .priorityPolicy => findByPriority es

/-- updateEngineStatus: set status, current job and lastActive. -/
def updateEngineStatus (engineId : String) (st : EngineState) (jobId : Option Nat)
    (now : Nat) (s : InfState) : InfState :=
  { s with engineStatus := s.engineStatus.map fun p =>
      if p.1 = engineId then
        (p.1, { p.2 with status := st, currentJob := jobId, lastActive := now })
      else p }

/-- enqueueJob: insert before the first strictly lower-priority job
(descending priority, stable on ties). -/
def enqueueJob (job : InfJob) : List InfJob → List InfJob
  | [] => [job]
  | j :: rest => if job.priority > j.priority then job :: j :: rest else j :: enqueueJob job rest

/-- What one submit call does, seen from the caller. -/
inductive SubmitOutcome
  | hit (response : InfResponse)
  | dispatched (engineId : String) (jobId : Nat)
  | queuedJob
deriving DecidableEq

/-- The miss path of submit: create the job, count it, dispatch to an
available engine (marking it processing — the first half of executeJob)
or insert into the priority queue. -/
def submitMiss (r : InfRequest) (priority : Int) (now : Nat) (st : InfState) :
    SubmitOutcome × InfState :=
  let job : InfJob := { id := st.nextJobId, request := r, priority := priority, createdAt := now }
  let st2 := { st with
      metrics := { st.metrics with totalJobs := st.metrics.totalJobs + 1 },
      nextJobId := st.nextJobId + 1 }
  match findAvailableEngine st2.config.loadBalancing st2.engineStatus with
  | some engineId =>
    (.dispatched engineId job.id, updateEngineStatus engineId .processing (some job.id) now st2)
  | none => (.queuedJob, { st2 with jobQueue := enqueueJob job st2.jobQueue })

/-- submit: with caching on, a cache entry younger than the 5-minute TTL
is returned directly (cacheHits++) without touching an engine; a stale
or absent entry counts a miss and falls through to the miss path. -/
def submit (r : InfRequest) (priority : Int) (now : Nat) (st : InfState) :
    SubmitOutcome × InfState :=
  if st.config.enableCaching = true then
    match mapGet (getCacheKey r) st.responseCache with
    | some cached =>
      if now - cached.timestamp < 300000 then
        (.hit cached.response,
          { st with metrics := { st.metrics with cacheHits := st.metrics.cacheHits + 1 } })
      else
        submitMiss r priority now
          { st with metrics := { st.metrics with cacheMisses := st.metrics.cacheMisses + 1 } }
    | none =>
      submitMiss r priority now
        { st with metrics := { st.metrics with cacheMisses := st.metrics.cacheMisses + 1 } }
  else submitMiss r priority now st

/-- cacheResponse: at or above the size bound delete the oldest-inserted
entry, then set the new entry under the request's key. -/
def cacheResponse (req : InfRequest) (resp : InfResponse) (now : Nat) (st : InfState) :
    InfState :=
  let cache1 :=
    if st.config.cacheSize ≤ st.responseCache.length then
      match st.responseCache with
      | [] => st.responseCache
      | oldest :: _ => mapDelete oldest.1 st.responseCache
    else st.responseCache
  { st with responseCache :=
      mapSet (getCacheKey req) { response := resp, timestamp := now } cache1 }

/-- The completion half of executeJob: bump completedJobs and the
incremental averages, bump the engine's processedJobs and rolling
latency, cache the response when caching is on, and return the engine
to idle. -/
def completeJob (engineId : String) (req : InfRequest) (resp : InfResponse)
    (startTime now : Nat) (st : InfState) : InfState :=
  let latency : ℚ := (now : ℚ) - (startTime : ℚ)
  let total : ℚ := (st.metrics.completedJobs : ℚ) + 1
  let m2 := { st.metrics with
      completedJobs := st.metrics.completedJobs + 1,
      averageLatency := (st.metrics.averageLatency * (total - 1) + latency) / total,
      tokensPerSecond :=
        (st.metrics.tokensPerSecond * (total - 1) + resp.tokensPerSecond) / total }
  let st1 := { st with
      metrics := m2,
      engineStatus := st.engineStatus.map fun p =>
        if p.1 = engineId then
          (p.1, { p.2 with
              processedJobs := p.2.processedJobs + 1,
              averageLatency :=
                (p.2.averageLatency * (((p.2.processedJobs : ℚ) + 1) - 1) + latency) /
                  ((p.2.processedJobs : ℚ) + 1) })
        else p }
  let st2 := if st1.config.enableCaching = true then cacheResponse req resp now st1 else st1
  updateEngineStatus engineId .idle none now st2


/-! ## Claim C4: cache hits bypass the engines -/

theorem completeJob_config (engineId : String) (req : InfRequest) (resp : InfResponse)
    (t0 t1 : Nat) (st : InfState) :
    (completeJob engineId req resp t0 t1 st).config = st.config := by
  unfold completeJob cacheResponse updateEngineStatus
  by_cases hc : st.config.enableCaching = true <;> simp [hc]

theorem completeJob_cache_lookup (engineId : String) (req : InfRequest)
    (resp : InfResponse) (t0 t1 : Nat) (st : InfState)
    (hc : st.config.enableCaching = true) :
    mapGet (getCacheKey req) (completeJob engineId req resp t0 t1 st).responseCache =
      some { response := resp, timestamp := t1 } := by
  unfold completeJob
  dsimp only
  rw [if_pos hc]
  unfold updateEngineStatus cacheResponse
  dsimp only
  rw [mapGet_mapSet, if_pos rfl]

/-- Claim C4 (confirmed): after a submit of r completes (caching on) at
time t1, a second submit whose request has the same
prompt/maxTokens/temperature/topK/topP key, issued less than the
5-minute TTL after t1, returns exactly the cached response and changes
nothing but the cacheHits counter — in particular no engine status (and
so no processedJobs counter) and no queue entry changes. -/
theorem submit_cache_hit (st : InfState) (engineId : String) (r r2 : InfRequest)
    (resp : InfResponse) (t0 t1 t2 : Nat) (prio : Int)
    (hc : st.config.enableCaching = true)
    (hkey : getCacheKey r2 = getCacheKey r)
    (httl : t2 - t1 < 300000) :
    mapGet (getCacheKey r) (completeJob engineId r resp t0 t1 st).responseCache =
      some { response := resp, timestamp := t1 } ∧
    submit r2 prio t2 (completeJob engineId r resp t0 t1 st) =
      (SubmitOutcome.hit resp,
        { completeJob engineId r resp t0 t1 st with
            metrics := { (completeJob engineId r resp t0 t1 st).metrics with
              cacheHits :=
                (completeJob engineId r resp t0 t1 st).metrics.cacheHits + 1 } }) := by
  have hconf := completeJob_config engineId r resp t0 t1 st
  have hlook := completeJob_cache_lookup engineId r resp t0 t1 st hc
  have hc3 : (completeJob engineId r resp t0 t1 st).config.enableCaching = true := by
    rw [hconf]; exact hc
  refine ⟨hlook, ?_⟩
  unfold submit
  rw [if_pos hc3, hkey, hlook]
  dsimp only
  rw [if_pos httl]


/-! ## Claim C8: round-robin routes three jobs to three engines -/

theorem submit_cache_empty (r : InfRequest) (p : Int) (t : Nat) (st : InfState)
    (hc : st.config.enableCaching = true) (hcache : st.responseCache = []) :
    submit r p t st =
      submitMiss r p t
        { st with metrics :=
            { st.metrics with cacheMisses := st.metrics.cacheMisses + 1 } } := by
  have hscrut : mapGet (getCacheKey r) st.responseCache = none := by
    rw [hcache]
    rfl
  unfold submit
  rw [if_pos hc, hscrut]

theorem submitMiss_dispatch (r : InfRequest) (p : Int) (t : Nat) (st : InfState)
    (e : String)
    (hfind : findAvailableEngine st.config.loadBalancing st.engineStatus = some e) :
    submitMiss r p t st =
      (SubmitOutcome.dispatched e st.nextJobId,
        updateEngineStatus e .processing (some st.nextJobId) t
          { st with
              metrics := { st.metrics with totalJobs := st.metrics.totalJobs + 1 },
              nextJobId := st.nextJobId + 1 }) := by
  unfold submitMiss
  dsimp only
  rw [hfind]

theorem submit_dispatch_fields (r : InfRequest) (p : Int) (t : Nat) (st : InfState)
    (e : String)
    (hc : st.config.enableCaching = true) (hcache : st.responseCache = [])
    (hfind : findAvailableEngine st.config.loadBalancing st.engineStatus = some e) :
    (submit r p t st).1 = SubmitOutcome.dispatched e st.nextJobId ∧
    (submit r p t st).2.engineStatus = (st.engineStatus.map fun q =>
      if q.1 = e then
        (q.1,
          { q.2 with
              status := EngineState.processing
              currentJob := some st.nextJobId
              lastActive := t })
      else q) ∧
    (submit r p t st).2.config = st.config ∧
    (submit r p t st).2.responseCache = [] ∧
    (submit r p t st).2.nextJobId = st.nextJobId + 1 := by
  rw [submit_cache_empty r p t st hc hcache, submitMiss_dispatch r p t _ e (by exact hfind)]
  exact ⟨rfl, rfl, rfl, hcache, rfl⟩

/-- Claim C8 (confirmed): with three registered engines all idle under
the round-robin policy and an empty response cache, three submit calls
with no intervening completion dispatch to the three distinct engines in
registration order, each dispatch marking its engine processing before
the next selection. -/
theorem roundRobin_three_distinct
    (e1 e2 e3 : String) (s1 s2 s3 : EngineStatus) (r1 r2 r3 : InfRequest)
    (p1 p2 p3 : Int) (t1 t2 t3 : Nat) (st : InfState)
    (hc : st.config.enableCaching = true)
    (hlb : st.config.loadBalancing = .roundRobin)
    (hcache : st.responseCache = [])
    (hengines : st.engineStatus = [(e1, s1), (e2, s2), (e3, s3)])
    (h1 : s1.status = .idle) (h2 : s2.status = .idle) (h3 : s3.status = .idle)
    (h12 : e1 ≠ e2) (h13 : e1 ≠ e3) (h23 : e2 ≠ e3) :
    (submit r1 p1 t1 st).1 = SubmitOutcome.dispatched e1 st.nextJobId ∧
    (submit r2 p2 t2 (submit r1 p1 t1 st).2).1 =
      SubmitOutcome.dispatched e2 (st.nextJobId + 1) ∧
    (submit r3 p3 t3 (submit r2 p2 t2 (submit r1 p1 t1 st).2).2).1 =
      SubmitOutcome.dispatched e3 (st.nextJobId + 1 + 1) := by
  have h21 : ¬ e2 = e1 := fun h => h12 h.symm
  have h31 : ¬ e3 = e1 := fun h => h13 h.symm
  have h32 : ¬ e3 = e2 := fun h => h23 h.symm
  have hfind1 : findAvailableEngine st.config.loadBalancing st.engineStatus = some e1 := by
    rw [hlb, hengines]
    simp [findAvailableEngine, firstIdle, h1]
  obtain ⟨A1, A2, A3, A4, A5⟩ :=
    submit_dispatch_fields r1 p1 t1 st e1 hc hcache hfind1
  have hfind2 : findAvailableEngine (submit r1 p1 t1 st).2.config.loadBalancing
      (submit r1 p1 t1 st).2.engineStatus = some e2 := by
    rw [A3, hlb, A2, hengines]
    simp [findAvailableEngine, firstIdle, h21, h31, h2]
  obtain ⟨B1, B2, B3, B4, B5⟩ :=
    submit_dispatch_fields r2 p2 t2 (submit r1 p1 t1 st).2 e2
      (by rw [A3]; exact hc) A4 hfind2
  have hfind3 : findAvailableEngine
      (submit r2 p2 t2 (submit r1 p1 t1 st).2).2.config.loadBalancing
      (submit r2 p2 t2 (submit r1 p1 t1 st).2).2.engineStatus = some e3 := by
    rw [B3, A3, hlb, B2, A2, hengines]
    simp [findAvailableEngine, firstIdle, h21, h31, h12, h32, h3]
  obtain ⟨C1, _, _, _, _⟩ :=
    submit_dispatch_fields r3 p3 t3 (submit r2 p2 t2 (submit r1 p1 t1 st).2).2 e3
      (by rw [B3, A3]; exact hc) B4 hfind3
  refine ⟨A1, ?_, ?_⟩
  · rw [B1, A5]
  · rw [C1, B5, A5]


/-- A coordinator configuration: round-robin, caching on. -/
def c4Config : InfConfig :=
  { maxEngines := 3, loadBalancing := .roundRobin, enableCaching := true, cacheSize := 1000 }

/-- A fresh idle engine status. -/
def c4Engine : EngineStatus :=
  { status := .idle, currentJob := none, processedJobs := 0, averageLatency := 0,
    lastActive := 0 }

/-- Zeroed coordinator metrics. -/
def c4Metrics : InfMetrics :=
  { totalJobs := 0, completedJobs := 0, failedJobs := 0, cacheHits := 0, cacheMisses := 0,
    averageLatency := 0, tokensPerSecond := 0 }

/-- A one-engine coordinator state with caching on. -/
def c4State : InfState :=
  { config := c4Config, engineStatus := [("engine_0", c4Engine)], jobQueue := [],
    responseCache := [], metrics := c4Metrics, nextJobId := 0 }

/-- A concrete inference request. -/
def c4Request : InfRequest :=
  { prompt := "p", maxTokens := 10, stopSequences := [], temperature := 0, topK := 1,
    topP := 1 }

/-- A concrete inference response. -/
def c4Response : InfResponse := { text := "out", tokens := 3, tokensPerSecond := 2 }

/-- Witness for C4: a concrete completion at time 100 followed by an
identical request at time 200 hits the cache. -/
theorem submit_cache_hit_witness :
    c4State.config.enableCaching = true ∧ (200 - 100 < 300000) ∧
    (mapGet (getCacheKey c4Request)
        (completeJob "engine_0" c4Request c4Response 50 100 c4State).responseCache =
      some { response := c4Response, timestamp := 100 } ∧
    submit c4Request 5 200 (completeJob "engine_0" c4Request c4Response 50 100 c4State) =
      (SubmitOutcome.hit c4Response,
        { completeJob "engine_0" c4Request c4Response 50 100 c4State with
            metrics :=
              { (completeJob "engine_0" c4Request c4Response 50 100 c4State).metrics with
                cacheHits :=
                  (completeJob "engine_0" c4Request c4Response 50 100
                    c4State).metrics.cacheHits + 1 } })) :=
  ⟨rfl, by norm_num,
    submit_cache_hit c4State "engine_0" c4Request c4Request c4Response 50 100 200 5
      rfl rfl (by norm_num)⟩

/-- A three-engine round-robin coordinator state, all idle. -/
def c8State : InfState :=
  { config := c4Config,
    engineStatus := [("engine_0", c4Engine), ("engine_1", c4Engine), ("engine_2", c4Engine)],
    jobQueue := [], responseCache := [], metrics := c4Metrics, nextJobId := 0 }

/-- Witness for C8: three concrete submissions land on the three
distinct engines in registration order. -/
theorem roundRobin_three_distinct_witness :
    (c8State.config.enableCaching = true ∧
      c8State.config.loadBalancing = LoadBalancing.roundRobin ∧
      c8State.responseCache = []) ∧
    ((submit c4Request 5 1 c8State).1 =
        SubmitOutcome.dispatched "engine_0" c8State.nextJobId ∧
      (submit c4Request 5 2 (submit c4Request 5 1 c8State).2).1 =
        SubmitOutcome.dispatched "engine_1" (c8State.nextJobId + 1) ∧
      (submit c4Request 5 3 (submit c4Request 5 2 (submit c4Request 5 1 c8State).2).2).1 =
        SubmitOutcome.dispatched "engine_2" (c8State.nextJobId + 1 + 1)) :=
  ⟨⟨rfl, rfl, rfl⟩,
    roundRobin_three_distinct "engine_0" "engine_1" "engine_2" c4Engine c4Engine c4Engine
      c4Request c4Request c4Request 5 5 5 1 2 3 c8State rfl rfl rfl rfl rfl rfl rfl
      (by decide) (by decide) (by decide)⟩

end RatKernelEval
